import Mathlib

/-!
Verification of the wave-planning engine of
`src/dev/dev_scripts/generate_parallel_execution_plan.py`.

The Python source is shallowly embedded below: every definition mirrors the
corresponding Python function (same structure, same order of checks).  Python's
`re` module is modeled by a small executable regular-expression engine
(derivative-based) together with a parser for the fragment of Python regex
syntax that the planner's patterns use (literals, escaped punctuation, `.`,
character classes such as `[^/]`, postfix `*` `+` `?`, alternation, groups,
and a leading `^` / trailing `$` anchor).  A pattern outside this fragment
fails to parse, which models `re.error` being raised and caught: the matcher
then reports "no match", exactly as the source's `try σ except re.error`
blocks do.

Machine integers are modeled as `Int` (Python ints are unbounded), and the two
float-valued summary statistics (`average_parallelism`,
`time_savings_percent`) as exact rationals with half-up rounding; no claim
depends on those two fields.
-/

/-- Decidable lexicographic strict order on lists of characters, by code
point, matching Python string comparison. -/
def charListLtB : List Char → List Char → Bool
  | _, [] => false
  | [], _ :: _ => true
  | a :: as, b :: bs => if a < b then true else if b < a then false else charListLtB as bs

/-- Python `a < b` on strings. -/
def strLtB (a b : String) : Bool := charListLtB a.toList b.toList

/-- Python `a <= b` on strings. -/
def strLeB (a b : String) : Bool := !(strLtB b a)

/-- Substring test on character lists: does `n` occur inside `h`
(Python `n in h`)? -/
def infixOfB (n h : List Char) : Bool :=
  h.tails.any (fun t => n.isPrefixOf t)

/-- Python `n in h` on strings. -/
def strContains (h n : String) : Bool := infixOfB n.toList h.toList

/-- One step of Python `str.replace`: left-to-right, non-overlapping.
`pat` is assumed non-empty (all call sites of the source use non-empty
patterns); the fuel argument (one unit per character of the subject) keeps
the recursion structural. -/
def replaceChars (pat rep : List Char) : Nat → List Char → List Char
  | _, [] => []
  | 0, s => s
  | f + 1, c :: rest =>
    if pat ≠ [] && pat.isPrefixOf (c :: rest) then
      rep ++ replaceChars pat rep f ((c :: rest).drop pat.length)
    else
      c :: replaceChars pat rep f rest

/-- Python `s.replace(pat, rep)`. -/
def strReplace (s pat rep : String) : String :=
  ⟨replaceChars pat.toList rep.toList s.toList.length s.toList⟩

/-- Python `s.split('/')`. -/
def splitSlash : List Char → List (List Char)
  | [] => [[]]
  | c :: rest =>
    match splitSlash rest with
    | [] => if c = '/' then [[], []] else [[c]]
    | h :: t => if c = '/' then [] :: h :: t else (c :: h) :: t

/-- Python `[p for p in s.split('/') if p]`: the non-empty `/`-separated
segments of a string. -/
def slashParts (s : String) : List (List Char) :=
  (splitSlash s.toList).filter (fun p => !p.isEmpty)

/-- Python `s.lstrip('^')`. -/
def lstripCaret (s : String) : String := ⟨s.toList.dropWhile (fun c => c = '^')⟩

/-- Python `s.rstrip('$')`. -/
def rstripDollar (s : String) : String :=
  ⟨((s.toList.reverse.dropWhile (fun c => c = '$'))).reverse⟩

/-- Python `s.rstrip('/')`. -/
def rstripSlash (s : String) : String :=
  ⟨((s.toList.reverse.dropWhile (fun c => c = '/'))).reverse⟩

/-! ### A derivative-based regex engine (model of Python `re.search`) -/

/-- Regular expressions over characters.  `cls neg cs` is a character class
`[...]` (`neg` for a leading `^`); `dot` is `.` (any character except
newline). -/
inductive RE where
  | emp : RE
  | eps : RE
  | chr : Char → RE
  | dot : RE
  | cls : Bool → List Char → RE
  | cat : RE → RE → RE
  | alt : RE → RE → RE
  | star : RE → RE
deriving DecidableEq, Repr

/-- Does the regex accept the empty string? -/
def reNullable : RE → Bool
  | .emp => false
  | .eps => true
  | .chr _ => false
  | .dot => false
  | .cls _ _ => false
  | .cat a b => reNullable a && reNullable b
  | .alt a b => reNullable a || reNullable b
  | .star _ => true

/-- Brzozowski derivative with respect to one character. -/
def reDeriv : RE → Char → RE
  | .emp, _ => .emp
  | .eps, _ => .emp
  | .chr c, d => if c = d then .eps else .emp
  | .dot, d => if d = '\n' then .emp else .eps
  | .cls neg cs, d => if (cs.contains d) != neg then .eps else .emp
  | .cat a b, d =>
      if reNullable a then .alt (.cat (reDeriv a d) b) (reDeriv b d)
      else .cat (reDeriv a d) b
  | .alt a b, d => .alt (reDeriv a d) (reDeriv b d)
  | .star a, d => .cat (reDeriv a d) (.star a)

/-- Does the regex match the whole character list? -/
def reFullMatch (r : RE) (cs : List Char) : Bool :=
  reNullable (cs.foldl reDeriv r)

/-- Does the regex match some (possibly empty) leading segment of the list? -/
def rePrefixMatch : RE → List Char → Bool
  | r, [] => reNullable r
  | r, c :: cs => reNullable r || rePrefixMatch (reDeriv r c) cs

/-- A parsed pattern: body regex plus the leading `^` / trailing `$`
anchor flags. -/
structure ParsedRE where
  anchorStart : Bool
  body : RE
  anchorEnd : Bool
deriving DecidableEq, Repr

/-- Semantics of Python `re.search` for a parsed pattern: some substring of
the subject (constrained by the anchors) is matched by the body. -/
def reSearchParsed (p : ParsedRE) (s : List Char) : Bool :=
  let starts := if p.anchorStart then [s] else s.tails
  if p.anchorEnd then starts.any (fun t => reFullMatch p.body t)
  else starts.any (fun t => rePrefixMatch p.body t)

/-- Left brace character (written by code so that no brace appears in a
string literal). -/
def lbrace : Char := Char.ofNat 123

/-- Right brace character. -/
def rbrace : Char := Char.ofNat 125

/-- Characters that may not appear bare in the supported regex fragment. -/
def reBadBare (c : Char) : Bool :=
  c = '^' || c = '$' || c = lbrace || c = rbrace

/-- Postfix repetition operators. -/
def rePostfixOp (c : Char) : Bool := c = '*' || c = '+' || c = '?'

/-- Parse the member characters of a class `[...]` (after the optional `^`).
A `]` directly after the opening is a literal member; `\` escapes
punctuation; ranges (`-`) are outside the supported fragment. -/
def parseClsChars (fuel : Nat) (acc : List Char) (first : Bool)
    (cs : List Char) : Option (List Char × List Char) :=
  match fuel, cs with
  | 0, _ => none
  | _, [] => none
  | f + 1, c :: rest =>
    if c = ']' then
      if first then parseClsChars f (']' :: acc) false rest
      else some (acc.reverse, rest)
    else if c = '\\' then
      match rest with
      | [] => none
      | d :: r2 => if d.isAlphanum then none else parseClsChars f (d :: acc) false r2
    else if c = '-' then none
    else parseClsChars f (c :: acc) false rest

mutual

/-- Parse an alternation `seq ('|' seq)*`. -/
def parseAlt (fuel : Nat) (cs : List Char) : Option (RE × List Char) :=
  match fuel with
  | 0 => none
  | f + 1 =>
    match parseSeq f .eps cs with
    | none => none
    | some (r, cs2) =>
      match cs2 with
      | '|' :: rest =>
        match parseAlt f rest with
        | none => none
        | some (r2, cs3) => some (.alt r r2, cs3)
      | _ => some (r, cs2)

/-- Parse a concatenation of postfixed atoms, stopping at `)` `|` or
end of input. -/
def parseSeq (fuel : Nat) (acc : RE) (cs : List Char) : Option (RE × List Char) :=
  match fuel with
  | 0 => none
  | f + 1 =>
    match cs with
    | [] => some (acc, [])
    | c :: _ =>
      if c = ')' || c = '|' then some (acc, cs)
      else
        match parseAtomPost f cs with
        | none => none
        | some (r, cs2) => parseSeq f (.cat acc r) cs2

/-- Parse one atom together with at most one postfix operator (a second
consecutive postfix operator is a "multiple repeat" error, as in Python). -/
def parseAtomPost (fuel : Nat) (cs : List Char) : Option (RE × List Char) :=
  match fuel with
  | 0 => none
  | f + 1 =>
    match parseAtom f cs with
    | none => none
    | some (r, cs2) =>
      match cs2 with
      | '*' :: rest =>
        (match rest with
         | c2 :: _ => if rePostfixOp c2 then none else some (.star r, rest)
         | [] => some (.star r, rest))
      | '+' :: rest =>
        (match rest with
         | c2 :: _ => if rePostfixOp c2 then none else some (.cat r (.star r), rest)
         | [] => some (.cat r (.star r), rest))
      | '?' :: rest =>
        (match rest with
         | c2 :: _ => if rePostfixOp c2 then none else some (.alt r .eps, rest)
         | [] => some (.alt r .eps, rest))
      | _ => some (r, cs2)

/-- Parse one atom: group, class, escape, `.` or a literal character. -/
def parseAtom (fuel : Nat) (cs : List Char) : Option (RE × List Char) :=
  match fuel with
  | 0 => none
  | f + 1 =>
    match cs with
    | [] => none
    | c :: rest =>
      if c = '(' then
        match parseAlt f rest with
        | none => none
        | some (r, cs2) =>
          match cs2 with
          | ')' :: cs3 => some (r, cs3)
          | _ => none
      else if c = '[' then
        match rest with
        | '^' :: r2 =>
          (match parseClsChars f [] true r2 with
           | none => none
           | some (mem, cs2) => some (.cls true mem, cs2))
        | _ =>
          (match parseClsChars f [] true rest with
           | none => none
           | some (mem, cs2) => some (.cls false mem, cs2))
      else if c = '\\' then
        match rest with
        | [] => none
        | d :: r2 => if d.isAlphanum then none else some (.chr d, r2)
      else if c = '.' then some (.dot, rest)
      else if rePostfixOp c then none
      else if reBadBare c then none
      else if c = ')' || c = '|' then none
      else some (.chr c, rest)

end

/-- Strip one leading `^` anchor. -/
def stripStartAnchor (cs : List Char) : Bool × List Char :=
  match cs with
  | '^' :: rest => (true, rest)
  | _ => (false, cs)

/-- Strip one trailing unescaped `$` anchor. -/
def stripEndAnchor (cs : List Char) : Bool × List Char :=
  match cs.reverse with
  | '$' :: '\\' :: _ => (false, cs)
  | '$' :: rest => (true, rest.reverse)
  | _ => (false, cs)

/-- Compile a Python regex pattern in the supported fragment; `none` models
`re.error` (or a construct outside the fragment). -/
def reParse (pat : String) : Option ParsedRE :=
  let cs := pat.toList
  let (sa, cs1) := stripStartAnchor cs
  let (ea, cs2) := stripEndAnchor cs1
  match parseAlt (4 * cs2.length + 8) cs2 with
  | some (r, []) => some ⟨sa, r, ea⟩
  | _ => none

/-- Model of Python `bool(re.search(pat, s))` with `re.error` reported as
`false` (the planner always wraps the call in `try ... except re.error`). -/
def reSearch (pat s : String) : Bool :=
  match reParse pat with
  | none => false
  | some p => reSearchParsed p s.toList

namespace GenPlan

/-! ### Data model (dataclasses `FilePattern` and `Task`) -/

/-- Dataclass `FilePattern(pattern, type)`; `type` is `'exact'`, `'regex'`
or `'glob'`. -/
structure FilePattern where
  pattern : String
  type : String
deriving DecidableEq, Repr

/-- Method `FilePattern.matches`: exact equality, regex search, or glob
translated to a regex (`'**/' -> '.*'` then `'*' -> '[^/]*'`, in that order,
exactly as the source chains the two `replace` calls) and searched; any other
`type`, or a pattern `re` rejects, matches nothing. -/
def FilePattern.matches (fp : FilePattern) (file_path : String) : Bool :=
  if fp.type = "exact" then fp.pattern == file_path
  else if fp.type = "regex" then reSearch fp.pattern file_path
  else if fp.type = "glob" then
    reSearch (strReplace (strReplace fp.pattern "**/" ".*") "*" "[^/]*") file_path
  else false

/-- Dataclass `Task`. -/
structure Task where
  task_id : String
  size : String
  expected_runtime_min : Int
  depends_on : List String
  conflicts_with : List String
  file_patterns : List FilePattern
  tags : List String
  enabler : Bool
deriving DecidableEq, Repr

/-! ### Pattern conflict detection (`ParallelExecutionPlanner._patterns_conflict`
and helpers).  These methods never read `self`, so they are embedded as plain
functions. -/

/-- Reclassification used by `_patterns_conflict`: a pattern whose text
contains `\.`, `.*`, `$` or `^` is treated as regex whatever its label. -/
def actualType (fp : FilePattern) : String :=
  if strContains fp.pattern "\\." || strContains fp.pattern ".*" ||
     strContains fp.pattern "$" || strContains fp.pattern "^" then "regex"
  else fp.type

/-- Method `_is_exact_regex`: after stripping anchors the pattern contains no
wildcard from the source's fixed list. -/
def is_exact_regex (pattern : String) : Bool :=
  let cleaned := rstripDollar (lstripCaret pattern)
  let wildcards : List (List Char) :=
    [['.', '*'], ['.', '+'], ['['], [']'], ['('], ['|'],
     [lbrace], [rbrace], ['?'], ['+'], ['*']]
  !(wildcards.any (fun w => infixOfB w cleaned.toList))

/-- Method `_extract_base_path`: the text before the first regex
metacharacter (the source applies `re.sub(r'[\.\*\[\]\(\)\?\+\{\}\\].*$', '',
pattern)`), with trailing slashes removed. -/
def extract_base_path (pattern : String) : String :=
  let metas : List Char :=
    ['.', '*', '[', ']', '(', ')', '?', '+', lbrace, rbrace, '\\']
  rstripSlash ⟨pattern.toList.takeWhile (fun c => !(metas.contains c))⟩

/-- The longest common leading run of two segment lists (the `common_prefix`
loop of `_generate_and_test_paths`). -/
def commonPref : List (List Char) → List (List Char) → List (List Char)
  | a :: as, b :: bs => if a = b then a :: commonPref as bs else []
  | _, _ => []

/-- The candidate path catalogue built from one base path. -/
def basePaths (base : String) : List String :=
  [base ++ ".ts", base ++ "/file.ts", base ++ "/sub/file.ts",
   base ++ "/handlers/file.ts", base ++ "/ado-service.ts",
   base ++ "/tool-service.ts", base ++ "/response-builder.ts"]

/-- Method `_generate_and_test_paths`: synthesize candidate paths from both
bases (plus fixed `services` / `utils` catalogues when those words occur in a
base) and test both patterns against every candidate. -/
def generate_and_test_paths (pattern1 pattern2 : FilePattern)
    (base1 base2 : String) : Bool :=
  let parts1 := slashParts base1
  let parts2 := slashParts base2
  let common_pref := commonPref parts1 parts2
  let test_paths : List String :=
    (if base1.toList ≠ [] then basePaths base1 else []) ++
    (if base2.toList ≠ [] && base2 ≠ base1 then basePaths base2 else []) ++
    (if strContains base1 "services" || strContains base2 "services" then
      ["mcp_server/src/services/ado-work-item-service.ts",
       "mcp_server/src/services/ado-query-service.ts",
       "mcp_server/src/services/tool-service.ts",
       "mcp_server/src/services/handlers/handler.ts",
       "mcp_server/src/services/handlers/wit-handler.ts"]
     else []) ++
    (if strContains base1 "utils" || strContains base2 "utils" then
      ["mcp_server/src/utils/response-builder.ts",
       "mcp_server/src/utils/logger.ts",
       "mcp_server/src/utils/auth.ts"]
     else [])
  let overlap_count := (test_paths.filter
    (fun p => pattern1.matches p && pattern2.matches p)).length
  let match1_count := (test_paths.filter (fun p => pattern1.matches p)).length
  let match2_count := (test_paths.filter (fun p => pattern2.matches p)).length
  if overlap_count > 0 then true
  else if match1_count > 0 && match2_count > 0 && common_pref.length ≥ 3 then true
  else false

/-- Method `_check_regex_pattern_overlap`. -/
def check_regex_pattern_overlap (pattern1 pattern2 : FilePattern) : Bool :=
  if is_exact_regex pattern1.pattern && is_exact_regex pattern2.pattern then
    strReplace (rstripDollar (lstripCaret pattern1.pattern)) "\\." "." ==
    strReplace (rstripDollar (lstripCaret pattern2.pattern)) "\\." "."
  else
    let base1 := extract_base_path pattern1.pattern
    let base2 := extract_base_path pattern2.pattern
    let parts1 := slashParts base1
    let parts2 := slashParts base2
    if parts1.isEmpty || parts2.isEmpty then true
    else
      let min_len := min parts1.length parts2.length
      if parts1.take min_len = parts2.take min_len then
        generate_and_test_paths pattern1 pattern2 base1 base2
      else false

/-- Method `_patterns_conflict`. -/
def patterns_conflict (pattern1 pattern2 : FilePattern) : Bool :=
  let actual_type1 := actualType pattern1
  let actual_type2 := actualType pattern2
  if actual_type1 = "exact" && actual_type2 = "exact" then
    pattern1.pattern == pattern2.pattern
  else if (actual_type1 = "regex" || actual_type1 = "glob") &&
          (actual_type2 = "regex" || actual_type2 = "glob") then
    if is_exact_regex pattern1.pattern && is_exact_regex pattern2.pattern then
      strReplace (rstripDollar (lstripCaret pattern1.pattern)) "\\." "." ==
      strReplace (rstripDollar (lstripCaret pattern2.pattern)) "\\." "."
    else check_regex_pattern_overlap pattern1 pattern2
  else if actual_type1 = "exact" && (actual_type2 = "regex" || actual_type2 = "glob") then
    pattern2.matches pattern1.pattern
  else if actual_type2 = "exact" && (actual_type1 = "regex" || actual_type1 = "glob") then
    pattern1.matches pattern2.pattern
  else false

/-- Method `_check_file_conflict`: identical ids never conflict; explicitly
declared conflicts (the `conflicts_with` fields) conflict; otherwise any
overlapping pair of file patterns conflicts. -/
def check_file_conflict (task1 task2 : Task) : Bool :=
  if task1.task_id == task2.task_id then false
  else if task1.conflicts_with.contains task2.task_id ||
          task2.conflicts_with.contains task1.task_id then true
  else task1.file_patterns.any (fun pattern1 =>
         task2.file_patterns.any (fun pattern2 =>
           patterns_conflict pattern1 pattern2))

/-! ### Input feeds and `load_data` -/

/-- One record of the dependency feed (`dependency_graph.json`), with the
`.get` defaults of `load_data` already applied by the JSON layer. -/
structure DepEntry where
  task_id : String
  size : String
  expected_runtime_min : Int
  depends_on : List String
  tags : List String
  enabler : Bool
deriving DecidableEq, Repr

/-- One `files` item of the conflict feed: either a
`pattern`/`type` record or a legacy plain string. -/
inductive FileInfo where
  | dict : String → String → FileInfo
  | legacy : String → FileInfo
deriving DecidableEq, Repr

/-- One record of the conflict feed (`conflict_graph.json`).  The feed also
carries a `conflicts_with` list (see `create_improved_graphs.py`, which
emits it); `load_data` reads only `task_id` and `files` and ignores
`conflicts_with`. -/
structure ConflictEntry where
  task_id : String
  files : List FileInfo
  conflicts_with : List String
deriving DecidableEq, Repr

/-- The `FilePattern` list built from one conflict-feed record's `files`
(dict records keep their fields; legacy strings are classified glob when they
contain `**` or end with `/**`, else exact). -/
def filePatternsOf (files : List FileInfo) : List FilePattern :=
  files.map fun fi =>
    match fi with
    | .dict p t => ⟨p, t⟩
    | .legacy s =>
      if strContains s "**" || "/**".toList.isSuffixOf s.toList then ⟨s, "glob"⟩
      else ⟨s, "exact"⟩

/-- Replace the value of the first entry with the given key, or append
(Python dict assignment). -/
def assocReplace {β : Type} (m : List (String × β)) (k : String) (v : β) :
    List (String × β) :=
  match m with
  | [] => [(k, v)]
  | (k0, v0) :: rest =>
    if k0 = k then (k0, v) :: rest else (k0, v0) :: assocReplace rest k v

/-- Add an element to a Python set represented as a duplicate-free list. -/
def addSet (l : List String) (v : String) : List String :=
  if l.contains v then l else l ++ [v]

/-- Add `v` to the set stored under key `k` in a `defaultdict(set)`. -/
def graphAdd (g : List (String × List String)) (k v : String) :
    List (String × List String) :=
  match g with
  | [] => [(k, [v])]
  | (k0, vs) :: rest =>
    if k0 = k then (k0, addSet vs v) :: rest else (k0, vs) :: graphAdd rest k v

/-- The planner state built by `load_data`
(`tasks`, `dependency_graph`, `reverse_dependency_graph`). -/
structure Planner where
  tasks : List (String × Task)
  dependency_graph : List (String × List String)
  reverse_dependency_graph : List (String × List String)
deriving DecidableEq, Repr

/-- The key list of `self.tasks` (Python dict insertion order). -/
def taskIds (st : Planner) : List String := st.tasks.map Prod.fst

/-- A placeholder task (the planner only ever looks up ids present in
`tasks`). -/
def defaultTask : Task := ⟨"", "M", 20, [], [], [], [], false⟩

/-- Python `self.tasks[id]`. -/
def getTask (st : Planner) (id : String) : Task :=
  (st.tasks.lookup id).getD defaultTask

/-- Python `self.dependency_graph[id]` (a `defaultdict(set)`, so a missing
key reads as the empty set). -/
def dg (st : Planner) (id : String) : List String :=
  (st.dependency_graph.lookup id).getD []

/-- Python `self.reverse_dependency_graph[id]`. -/
def rdg (st : Planner) (id : String) : List String :=
  (st.reverse_dependency_graph.lookup id).getD []

/-- The `for dep in task.depends_on` loop of `load_data`: add each edge to
the forward and reverse dependency graphs. -/
def addEdges (tid : String) (ds : List String) (st : Planner) : Planner :=
  ds.foldl
    (fun s dep =>
      ⟨s.tasks, graphAdd s.dependency_graph tid dep,
       graphAdd s.reverse_dependency_graph dep tid⟩) st

/-- Process one dependency-feed record: store the `Task` (with
`conflicts_with` left empty — the source never fills it from the feed) and
add its dependency edges to both graphs. -/
def loadEntry (fpMap : List (String × List FilePattern)) (st : Planner)
    (e : DepEntry) : Planner :=
  let task : Task :=
    ⟨e.task_id, e.size, e.expected_runtime_min, e.depends_on, [],
     (fpMap.lookup e.task_id).getD [], e.tags, e.enabler⟩
  addEdges e.task_id e.depends_on
    ⟨assocReplace st.tasks e.task_id task, st.dependency_graph,
     st.reverse_dependency_graph⟩

/-- Method `load_data` (with the two JSON files already parsed into feed
records). -/
def load_data (dependencies : List DepEntry) (file_patterns_data : List ConflictEntry) :
    Planner :=
  let fpMap := file_patterns_data.foldl
    (fun m e => assocReplace m e.task_id (filePatternsOf e.files)) []
  dependencies.foldl (loadEntry fpMap) ⟨[], [], []⟩

/-! ### Priority-ordered topological sort (`_get_task_priority`,
`_topological_sort_with_priority`).

Python iterates `reverse_dependency_graph[current_task]` — a `set`, whose
iteration order depends on string hashing and is not fixed across
interpreter runs.  The loop is therefore parameterized by `choice`, an
arbitrary per-step reordering of that set; `choice := fun _ l => l` gives
the canonical embedding, and the determinism theorem shows the result does
not depend on `choice` at all. -/

/-- The sort key comparison derived from `_get_task_priority`:
`(-dependent_count, task_id)` tuples compared ascending. -/
def prioLeB (st : Planner) (a b : String) : Bool :=
  let ia := (getTask st a).task_id
  let ib := (getTask st b).task_id
  let ka : Int := -(((rdg st ia)).length : Int)
  let kb : Int := -(((rdg st ib)).length : Int)
  decide (ka < kb) || (decide (ka = kb) && strLeB ia ib)

/-- `prioLeB` as a decidable relation (for `List.insertionSort`). -/
def prioRel (st : Planner) (a b : String) : Prop := prioLeB st a b = true

instance (st : Planner) : DecidableRel (prioRel st) :=
  fun a b => inferInstanceAs (Decidable (prioLeB st a b = true))

/-- Python `available_tasks.sort(key=lambda tid: self._get_task_priority(self.tasks[tid]))`
(a stable sort by an ascending key). -/
def sortIds (st : Planner) (l : List String) : List String :=
  List.insertionSort (prioRel st) l

/-- Python `for dependent in rdg[current]: in_degree[dependent] -= 1; if ... == 0: append`:
decrement every listed id and collect, in iteration order, those whose count
reaches zero. -/
def decAll (deg : String -> Int) : List String -> ((String -> Int) × List String)
  | [] => (deg, [])
  | d :: rest =>
    let v := deg d - 1
    let deg1 : String -> Int := fun x => if x = d then v else deg x
    let p := decAll deg1 rest
    (p.1, if v = 0 then d :: p.2 else p.2)

/-- The Kahn loop of `_topological_sort_with_priority`, with fuel (one unit
per emitted task; the source loop runs at most once per task). -/
def topoLoopC (st : Planner) (choice : Nat -> List String -> List String) :
    Nat -> (String -> Int) -> List String -> List String -> List String
  | 0, _, _, res => res
  | fuel + 1, deg, avail, res =>
    match sortIds st avail with
    | [] => res
    | cur :: rest =>
      let p := decAll deg (choice fuel (rdg st cur))
      topoLoopC st choice fuel p.1 (rest ++ p.2) (res ++ [cur])

/-- The initial in-degree table: `in_degree[task_id] =
len(self.dependency_graph[task_id])` for every task, `0` (the `defaultdict`
default) elsewhere. -/
def initDeg (st : Planner) : String -> Int :=
  fun t => if (taskIds st).contains t then ((dg st t).length : Int) else 0

/-- The initial pool: tasks of in-degree zero, in task order. -/
def initAvail (st : Planner) : List String :=
  (taskIds st).filter (fun t => initDeg st t == 0)

/-- The emission list computed by the Kahn loop on the initial state. -/
def topoResult (choice : Nat -> List String -> List String) (st : Planner) :
    List String :=
  topoLoopC st choice (taskIds st).length (initDeg st) (initAvail st) []

/-- Method `_topological_sort_with_priority`; the `ValueError("Circular
dependency detected!")` raise is modeled as `Except.error`. -/
def topoSortC (choice : Nat -> List String -> List String) (st : Planner) :
    Except String (List String) :=
  if (topoResult choice st).length != (taskIds st).length then
    Except.error "Circular dependency detected!"
  else Except.ok (topoResult choice st)

/-! ### Wave packing and plan assembly (`generate_execution_plan`) -/

/-- One task record of an output wave (the dict built at source
lines 399-406). -/
structure WaveTask where
  task_id : String
  size : String
  expected_runtime_min : Int
  tags : List String
  enabler : Bool
  files : List String
deriving DecidableEq, Repr

/-- The wave record (source lines 414-420). -/
structure Wave where
  wave_number : Nat
  tasks : List WaveTask
  parallel_task_count : Nat
  estimated_wave_time_min : Int
  size_distribution : List (String × Nat)
deriving DecidableEq, Repr

/-- The summary statistics (source lines 430-441); the two float-valued
fields are modeled as exact rationals. -/
structure Summary where
  total_waves : Nat
  total_tasks : Nat
  estimated_total_time_min : Int
  average_parallelism : Rat
  max_parallelism : Nat
  sequential_time_min : Int
  parallel_time_min : Int
  time_savings_percent : Rat
deriving DecidableEq, Repr

/-- The produced execution plan. -/
structure Plan where
  waves : List Wave
  summary : Summary
deriving DecidableEq, Repr

/-- Python `max(gen, default=0)` over `Int`. -/
def listMaxD : List Int -> Int
  | [] => 0
  | x :: xs => xs.foldl max x

/-- Python `max(...)` over wave sizes (`Nat`), with `0` for no waves. -/
def natMaxD : List Nat -> Nat
  | [] => 0
  | x :: xs => xs.foldl max x

/-- Model of Python `round(x, 2)` (float banker's rounding modeled as exact
rational half-up rounding; no claim depends on this field). -/
def round2 (x : Rat) : Rat := ((Rat.floor (x * 100 + 1/2) : Int) : Rat) / 100

/-- Model of Python `round(x, 1)`. -/
def round1 (x : Rat) : Rat := ((Rat.floor (x * 10 + 1/2) : Int) : Rat) / 10

/-- The wave-packing sort key (source line 381):
`(len(t.conflicts_with), t.task_id)` ascending. -/
def availLeB (t1 t2 : Task) : Bool :=
  decide (t1.conflicts_with.length < t2.conflicts_with.length) ||
  (decide (t1.conflicts_with.length = t2.conflicts_with.length) &&
   strLeB t1.task_id t2.task_id)

/-- `availLeB` as a decidable relation. -/
def availRel (t1 t2 : Task) : Prop := availLeB t1 t2 = true

instance : DecidableRel availRel :=
  fun a b => inferInstanceAs (Decidable (availLeB a b = true))

/-- The output dict built for a packed task. -/
def mkWaveTask (t : Task) : WaveTask :=
  ⟨t.task_id, t.size, t.expected_runtime_min, t.tags, t.enabler,
   t.file_patterns.map FilePattern.pattern⟩

/-- The inner `for selected_task_dict in wave_tasks` conflict scan. -/
def conflictsWithSelected (st : Planner) (t : Task) (ws : List WaveTask) : Bool :=
  ws.any (fun sel => check_file_conflict t (getTask st sel.task_id))

/-- The greedy packing loop (source lines 383-408): scan the sorted
candidates, admitting each task that does not conflict with any already
admitted one; returns the wave's task dicts and the id set used. -/
def packLoop (st : Planner) : List Task -> List WaveTask -> List String ->
    (List WaveTask × List String)
  | [], acc, used => (acc, used)
  | t :: rest, acc, used =>
    if used.contains t.task_id then packLoop st rest acc used
    else if conflictsWithSelected st t acc then packLoop st rest acc used
    else packLoop st rest (acc ++ [mkWaveTask t]) (used ++ [t.task_id])

/-- Method `_get_size_distribution` (an insertion-ordered counting dict). -/
def distAdd (m : List (String × Nat)) (s : String) : List (String × Nat) :=
  match m with
  | [] => [(s, 1)]
  | (k, n) :: rest => if k = s then (k, n + 1) :: rest else (k, n) :: distAdd rest s

/-- Size histogram of a wave. -/
def get_size_distribution (ts : List WaveTask) : List (String × Nat) :=
  ts.foldl (fun m t => distAdd m t.size) []

/-- Python `set(a) == set(b)` for id lists. -/
def setEqB (a b : List String) : Bool :=
  a.all (fun x => b.contains x) && b.all (fun x => a.contains x)

/-- The ready candidates of one wave iteration (source lines 365-370): tasks
not yet completed all of whose dependencies are completed, in topological
order. -/
def waveAvail (st : Planner) (sorted completed : List String) : List Task :=
  (sorted.filter (fun id =>
    !(completed.contains id) &&
    (getTask st id).depends_on.all (fun dep => completed.contains dep))).map
    (getTask st)

/-- The wave record appended for a packed task list. -/
def mkWave (n : Nat) (wts : List WaveTask) : Wave :=
  ⟨n, wts, wts.length, listMaxD (wts.map WaveTask.expected_runtime_min),
   get_size_distribution wts⟩

/-- The `while completed_tasks != set(self.tasks.keys())` loop of
`generate_execution_plan`, with fuel (the loop packs at least one task per
iteration, so `#tasks + 1` units are enough). -/
def waveLoop (st : Planner) (sorted : List String) :
    Nat -> List String -> List Wave -> Except String (List Wave)
  | 0, completed, waves =>
    if setEqB completed (taskIds st) then Except.ok waves
    else Except.error "fuel exhausted"
  | fuel + 1, completed, waves =>
    if setEqB completed (taskIds st) then Except.ok waves
    else
      let avail := waveAvail st sorted completed
      if avail.isEmpty then
        Except.error "No available tasks - possible circular dependency!"
      else
        let availS := List.insertionSort availRel avail
        let packed := packLoop st availS [] []
        let completed1 := completed ++ packed.1.map WaveTask.task_id
        let waves1 :=
          if packed.1.isEmpty then waves
          else waves ++ [mkWave (waves.length + 1) packed.1]
        waveLoop st sorted fuel completed1 waves1

/-- The summary block computed after the loop (source lines 422-443). -/
def assemble (st : Planner) (waves : List Wave) : Plan :=
  let total_time : Int := (waves.map Wave.estimated_wave_time_min).sum
  let total_tasks : Nat := st.tasks.length
  let seq : Int := (st.tasks.map (fun p => p.2.expected_runtime_min)).sum
  let avg : Rat :=
    if waves.length ≠ 0 then (total_tasks : Rat) / (waves.length : Rat) else 0
  ⟨waves,
   ⟨waves.length, total_tasks, total_time, round2 avg,
    natMaxD (waves.map Wave.parallel_task_count), seq, total_time,
    if seq > 0 then round1 ((1 - (total_time : Rat) / (seq : Rat)) * 100) else 0⟩⟩

/-- Method `generate_execution_plan`, parameterized by the set-iteration
order `choice` (see `topoLoopC`). -/
def generateC (choice : Nat -> List String -> List String) (st : Planner) :
    Except String Plan :=
  match topoSortC choice st with
  | Except.error e => Except.error e
  | Except.ok sorted =>
    match waveLoop st sorted ((taskIds st).length + 1) [] [] with
    | Except.error e => Except.error e
    | Except.ok waves => Except.ok (assemble st waves)

/-- Method `generate_execution_plan` with the canonical iteration order. -/
def generate_execution_plan (st : Planner) : Except String Plan :=
  generateC (fun _ l => l) st

/-! ### Concrete feed inputs used by the claim theorems -/

/-- Dependency feed of the spec's three-task end-to-end example:
A (no deps), B (no deps), C (depends on A). -/
def depsC1 : List DepEntry :=
  [⟨"A", "S", 10, [], [], false⟩, ⟨"B", "S", 10, [], [], false⟩,
   ⟨"C", "S", 10, ["A"], [], false⟩]

/-- Conflict feed of the example: B explicitly declares a conflict with A
(no file patterns anywhere). -/
def confsC1 : List ConflictEntry :=
  [⟨"A", [], []⟩, ⟨"B", [], ["A"]⟩, ⟨"C", [], []⟩]

/-- The loaded three-task planner state. -/
def stC1 : Planner := load_data depsC1 confsC1

/-- First pattern of the C3 probe pair: a glob under `a/b/c/x`. -/
def p1C3 : FilePattern := ⟨"a/b/c/x/*", "glob"⟩

/-- Second pattern of the C3 probe pair: a sibling glob under `a/b/c/y`. -/
def p2C3 : FilePattern := ⟨"a/b/c/y/*", "glob"⟩

/-- Modelled from the spec: the overlap rule claim C3 states for two
reclassified glob/regex patterns, not both exact paths spelled as regex,
with both literal prefixes non-empty — if the prefixes share no common
leading segment there is no overlap, otherwise (parent/child *or* siblings
under a common root) the bounded candidate-path probe decides the result. -/
def c3ClaimOverlap (pattern1 pattern2 : FilePattern) : Bool :=
  let base1 := extract_base_path pattern1.pattern
  let base2 := extract_base_path pattern2.pattern
  if commonPref (slashParts base1) (slashParts base2) = [] then false
  else generate_and_test_paths pattern1 pattern2 base1 base2

/-! ### Claim theorems: pattern matcher and conflict detection -/

/-- C1: evaluation of the planner at the spec's three-task example, with the
conflict feed explicitly declaring that B conflicts with A.  `load_data`
never reads the feed's `conflicts_with` field (it stores `conflicts_with =
[]` for every task), so the declared conflict is ignored and A and B are
packed into the same wave: the produced plan is wave 1 = (A, B) and
wave 2 = (C), not the claimed wave 1 = (A), wave 2 = (B, C). -/
theorem c1_feed_conflicts_ignored :
    (getTask stC1 "B").conflicts_with = [] ∧
    (generate_execution_plan stC1).toOption.map
      (fun p => p.waves.map (fun w => w.tasks.map WaveTask.task_id)) =
      some [["A", "B"], ["C"]] ∧
    (generate_execution_plan stC1).toOption.map
      (fun p => (p.summary.total_waves, p.summary.max_parallelism)) =
      some (2, 2) := by
  refine ⟨rfl, ?_, ?_⟩ <;> rfl

/-- C2: the source translates a glob by `pattern.replace('**/', '.*')
.replace('*', '[^/]*')`; the second replace also rewrites the `*` produced
by the first, so `src/**/a.ts` becomes the regex `src/.[^/]*a.ts`, which
cannot cross a `/`: the claimed match of `src/x/y/a.ts` (two path segments
under `src/`) fails, while `src/xa.ts` (no separator) matches. -/
theorem c2_glob_translation_bug :
    strReplace (strReplace "src/**/a.ts" "**/" ".*") "*" "[^/]*" =
      "src/.[^/]*a.ts" ∧
    FilePattern.matches ⟨"src/**/a.ts", "glob"⟩ "src/x/y/a.ts" = false ∧
    FilePattern.matches ⟨"src/**/a.ts", "glob"⟩ "src/xa.ts" = true := by
  refine ⟨rfl, ?_, ?_⟩ <;> rfl

/-- C3 counterexample: the sibling globs `a/b/c/x/*` and `a/b/c/y/*` are
both glob after reclassification, are not exact paths spelled as regex, and
have non-empty literal prefixes sharing the leading segments `a/b/c`; the
claim says the candidate-path probe is run and decides (here it would return
true, since both patterns match candidates and the shared prefix is 3 deep),
but `_check_regex_pattern_overlap` requires one prefix to be a leading
prefix of the other and returns false without running the probe. -/
theorem c3_counterexample :
    (actualType p1C3 = "glob" ∧ actualType p2C3 = "glob") ∧
    ¬(is_exact_regex p1C3.pattern = true ∧ is_exact_regex p2C3.pattern = true) ∧
    slashParts (extract_base_path p1C3.pattern) ≠ [] ∧
    slashParts (extract_base_path p2C3.pattern) ≠ [] ∧
    commonPref (slashParts (extract_base_path p1C3.pattern))
      (slashParts (extract_base_path p2C3.pattern)) ≠ [] ∧
    c3ClaimOverlap p1C3 p2C3 = true ∧
    patterns_conflict p1C3 p2C3 = false := by
  refine ⟨⟨rfl, rfl⟩, by decide, by decide, by decide, by decide, ?_, ?_⟩ <;> rfl

/-- C3 (amended): for two patterns that after reclassification are both
glob/regex and are not both exact paths spelled as regex, with both literal
prefixes non-empty, the overlap check runs the bounded candidate-path probe
exactly when one prefix's segment list is a leading prefix of the other's
(parent/child relationship), and declares no overlap otherwise — including
for siblings under a common root. -/
theorem c3_amended (pattern1 pattern2 : FilePattern)
    (h1 : actualType pattern1 = "regex" ∨ actualType pattern1 = "glob")
    (h2 : actualType pattern2 = "regex" ∨ actualType pattern2 = "glob")
    (hex : ¬(is_exact_regex pattern1.pattern = true ∧
             is_exact_regex pattern2.pattern = true))
    (hp1 : slashParts (extract_base_path pattern1.pattern) ≠ [])
    (hp2 : slashParts (extract_base_path pattern2.pattern) ≠ []) :
    patterns_conflict pattern1 pattern2 =
      (if (slashParts (extract_base_path pattern1.pattern)).take
            (min (slashParts (extract_base_path pattern1.pattern)).length
                 (slashParts (extract_base_path pattern2.pattern)).length) =
          (slashParts (extract_base_path pattern2.pattern)).take
            (min (slashParts (extract_base_path pattern1.pattern)).length
                 (slashParts (extract_base_path pattern2.pattern)).length) then
        generate_and_test_paths pattern1 pattern2
          (extract_base_path pattern1.pattern) (extract_base_path pattern2.pattern)
       else false) := by
  have t1ne : actualType pattern1 ≠ "exact" := by
    cases h1 with
    | inl h => rw [h]; decide
    | inr h => rw [h]; decide
  have t2ne : actualType pattern2 ≠ "exact" := by
    cases h2 with
    | inl h => rw [h]; decide
    | inr h => rw [h]; decide
  have hb1 : (actualType pattern1 = "regex" || actualType pattern1 = "glob") = true := by
    cases h1 with
    | inl h => rw [h]; decide
    | inr h => rw [h]; decide
  have hb2 : (actualType pattern2 = "regex" || actualType pattern2 = "glob") = true := by
    cases h2 with
    | inl h => rw [h]; decide
    | inr h => rw [h]; decide
  have hexb : (is_exact_regex pattern1.pattern &&
               is_exact_regex pattern2.pattern) = false := by
    cases hx1 : is_exact_regex pattern1.pattern with
    | false => rfl
    | true =>
      cases hx2 : is_exact_regex pattern2.pattern with
      | false => rfl
      | true => exact absurd ⟨hx1, hx2⟩ hex
  have hd1 : decide (actualType pattern1 = "exact") = false := by
    simp [t1ne]
  unfold patterns_conflict
  rw [if_neg (by rw [hd1]; simp)]
  rw [if_pos (by rw [hb1, hb2]; rfl)]
  rw [if_neg (by rw [hexb]; simp)]
  unfold check_regex_pattern_overlap
  rw [if_neg (by rw [hexb]; simp)]
  rw [if_neg (by
    rw [List.isEmpty_eq_false_iff_exists_mem.mpr, List.isEmpty_eq_false_iff_exists_mem.mpr]
    · simp
    · exact List.exists_mem_of_ne_nil _ hp2
    · exact List.exists_mem_of_ne_nil _ hp1)]

/-- C3 amended-claim witness: the amended rule evaluated at the concrete
sibling pair (prefix lists `[a,b,c,x]` and `[a,b,c,y]`, not in a leading
prefix relation, so the result is false). -/
theorem c3_amended_witness :
    patterns_conflict p1C3 p2C3 =
      (if (slashParts (extract_base_path p1C3.pattern)).take
            (min (slashParts (extract_base_path p1C3.pattern)).length
                 (slashParts (extract_base_path p2C3.pattern)).length) =
          (slashParts (extract_base_path p2C3.pattern)).take
            (min (slashParts (extract_base_path p1C3.pattern)).length
                 (slashParts (extract_base_path p2C3.pattern)).length) then
        generate_and_test_paths p1C3 p2C3
          (extract_base_path p1C3.pattern) (extract_base_path p2C3.pattern)
       else false) :=
  c3_amended p1C3 p2C3 (Or.inr rfl) (Or.inr rfl) (by decide) (by decide) (by decide)

/-- C9: `FilePattern.matches` is a total boolean function (no exception
reaches the caller); a pattern the regex layer rejects — modeled by
`reParse` returning `none`, the image of `re.error` — matches nothing, both
for regex patterns and for translated globs, and a pattern of unknown kind
matches nothing. -/
theorem c9_matches_total_fail_closed (fp : FilePattern) (path : String) :
    (fp.matches path = true ∨ fp.matches path = false) ∧
    (fp.type = "regex" → reParse fp.pattern = none → fp.matches path = false) ∧
    (fp.type = "glob" →
      reParse (strReplace (strReplace fp.pattern "**/" ".*") "*" "[^/]*") = none →
      fp.matches path = false) ∧
    (fp.type ≠ "exact" → fp.type ≠ "regex" → fp.type ≠ "glob" →
      fp.matches path = false) := by
  refine ⟨?_, ?_, ?_, ?_⟩
  · cases h : fp.matches path
    · exact Or.inr rfl
    · exact Or.inl rfl
  · intro ht hp
    unfold FilePattern.matches
    rw [if_neg (by rw [ht]; decide), if_pos ht]
    unfold reSearch
    rw [hp]
  · intro ht hp
    unfold FilePattern.matches
    rw [if_neg (by rw [ht]; decide), if_neg (by rw [ht]; decide), if_pos ht]
    unfold reSearch
    rw [hp]
  · intro h1 h2 h3
    unfold FilePattern.matches
    rw [if_neg h1, if_neg h2, if_neg h3]

/-- C9 witness: the malformed regex pattern `(` is rejected by the regex
layer and matches nothing. -/
theorem c9_witness :
    FilePattern.matches ⟨"(", "regex"⟩ "mcp_server/src/services/x.ts" = false :=
  (c9_matches_total_fail_closed ⟨"(", "regex"⟩ "mcp_server/src/services/x.ts").2.1
    rfl (by decide)

/-- C10: a pair of distinct tasks with no explicitly declared conflict in
either direction and at least one empty resource-pattern list never has a
pattern-derived conflict: the pairwise pattern loops are vacuous and
`_check_file_conflict` returns false, so such a task can share a wave with
any other ready task. -/
theorem c10_empty_patterns_no_conflict (t1 t2 : Task)
    (hid : t1.task_id ≠ t2.task_id)
    (hpat : t1.file_patterns = [] ∨ t2.file_patterns = [])
    (hex1 : ¬ t2.task_id ∈ t1.conflicts_with)
    (hex2 : ¬ t1.task_id ∈ t2.conflicts_with) :
    check_file_conflict t1 t2 = false := by
  have h0 : (t1.task_id == t2.task_id) = false := by
    rw [beq_eq_false_iff_ne]; exact hid
  have hc1 : t1.conflicts_with.contains t2.task_id = false := by
    cases h : t1.conflicts_with.contains t2.task_id with
    | false => rfl
    | true => exact absurd (List.elem_iff.mp h) hex1
  have hc2 : t2.conflicts_with.contains t1.task_id = false := by
    cases h : t2.conflicts_with.contains t1.task_id with
    | false => rfl
    | true => exact absurd (List.elem_iff.mp h) hex2
  unfold check_file_conflict
  rw [if_neg (by rw [h0]; simp)]
  rw [if_neg (by rw [hc1, hc2]; simp)]
  cases hpat with
  | inl h => rw [h]; rfl
  | inr h => rw [h]; simp

/-- C10 witness: two concrete distinct tasks, the first with no resource
patterns, do not conflict. -/
theorem c10_witness :
    check_file_conflict ⟨"A", "S", 10, [], [], [], [], false⟩
      ⟨"B", "S", 10, [], [], [⟨"src/.*", "regex"⟩], [], false⟩ = false :=
  c10_empty_patterns_no_conflict _ _ (by decide) (Or.inl rfl) (by decide) (by decide)

/-! ### Well-formedness of loaded planner states, and the dependency-cycle
relation -/

/-- Structural facts that hold for every state built by `load_data`
(proved below as `load_data_wf`). -/
structure PlannerWF (st : Planner) : Prop where
  tidsNodup : (taskIds st).Nodup
  dgNodup : ∀ t, (dg st t).Nodup
  rdgNodup : ∀ t, (rdg st t).Nodup
  rdgIff : ∀ d t, t ∈ rdg st d ↔ (t ∈ taskIds st ∧ d ∈ dg st t)
  keyEq : ∀ p ∈ st.tasks, p.2.task_id = p.1
  taskDeps : ∀ p ∈ st.tasks, ∀ d ∈ p.2.depends_on, d ∈ dg st p.1

/-- One edge of the dependency graph between loaded tasks: `a` depends on
`b`. -/
def depEdge (st : Planner) (a b : String) : Prop :=
  a ∈ taskIds st ∧ b ∈ taskIds st ∧ b ∈ dg st a

/-- The dependency graph of the loaded task set contains a cycle. -/
def DepCycle (st : Planner) : Prop :=
  ∃ t, Relation.TransGen (depEdge st) t t

/-! ### Index bookkeeping for emission order -/

/-- Index of the first occurrence of `x` (length of the list when absent). -/
def idxOf (x : String) : List String → Nat
  | [] => 0
  | y :: ys => if y = x then 0 else idxOf x ys + 1

theorem idxOf_lt_length {x : String} : ∀ {l : List String}, x ∈ l → idxOf x l < l.length := by
  intro l h
  induction l with
  | nil => cases h
  | cons y ys ih =>
    by_cases hy : y = x
    · simp [idxOf, hy]
    · rcases List.mem_cons.mp h with h | h
      · exact absurd h.symm hy
      · simpa [idxOf, hy] using ih h

theorem idxOf_append_mem {x : String} {l l2 : List String} (h : x ∈ l) :
    idxOf x (l ++ l2) = idxOf x l := by
  induction l with
  | nil => cases h
  | cons y ys ih =>
    by_cases hy : y = x
    · simp [idxOf, hy]
    · rcases List.mem_cons.mp h with h | h
      · exact absurd h.symm hy
      · simp [idxOf, hy, ih h]

theorem idxOf_append_self {x : String} {l : List String} (h : x ∉ l) :
    idxOf x (l ++ [x]) = l.length := by
  induction l with
  | nil => simp [idxOf]
  | cons y ys ih =>
    have hy : y ≠ x := by rintro rfl; exact h (List.mem_cons_self _ _)
    have hx : x ∉ ys := fun hm => h (List.mem_cons_of_mem _ hm)
    simp [idxOf, hy, ih hx]

theorem mem_addSet {l : List String} {v x : String} :
    x ∈ addSet l v ↔ x ∈ l ∨ x = v := by
  unfold addSet
  by_cases h : l.contains v
  · rw [if_pos h]
    constructor
    · exact Or.inl
    · rintro (hx | rfl)
      · exact hx
      · exact List.elem_iff.mp h
  · rw [if_neg h]
    simp

theorem addSet_nodup {l : List String} {v : String} (h : l.Nodup) :
    (addSet l v).Nodup := by
  unfold addSet
  by_cases hc : l.contains v
  · rw [if_pos hc]; exact h
  · rw [if_neg hc]
    refine List.Nodup.append h (List.nodup_singleton v) ?_
    intro x hx hv
    rw [List.mem_singleton] at hv
    subst hv
    exact hc (List.elem_iff.mpr hx)

/-! ### Characterization of `decAll` -/

theorem decAll_fst {deg : String -> Int} {l : List String} (hl : l.Nodup) (x : String) :
    (decAll deg l).1 x = if x ∈ l then deg x - 1 else deg x := by
  induction l generalizing deg with
  | nil => simp [decAll]
  | cons d rest ih =>
    rcases List.nodup_cons.mp hl with ⟨hd, hrest⟩
    show (decAll (fun y => if y = d then deg d - 1 else deg y) rest).1 x = _
    rw [ih hrest]
    by_cases hx : x = d
    · subst hx
      rw [if_neg hd, if_pos rfl, if_pos (List.mem_cons_self _ _)]
    · by_cases hxr : x ∈ rest
      · rw [if_pos hxr, if_neg hx, if_pos (List.mem_cons_of_mem _ hxr)]
      · rw [if_neg hxr, if_neg hx,
          if_neg (by
            intro hmem
            rcases List.mem_cons.mp hmem with h | h
            · exact hx h
            · exact hxr h)]

theorem decAll_snd {deg : String -> Int} {l : List String} (hl : l.Nodup) :
    (decAll deg l).2 = l.filter (fun d => deg d == 1) := by
  induction l generalizing deg with
  | nil => simp [decAll]
  | cons d rest ih =>
    rcases List.nodup_cons.mp hl with ⟨hd, hrest⟩
    show (if deg d - 1 = 0 then
        d :: (decAll (fun y => if y = d then deg d - 1 else deg y) rest).2
      else (decAll (fun y => if y = d then deg d - 1 else deg y) rest).2) = _
    rw [ih hrest]
    have hcongr : rest.filter (fun y => (if y = d then deg d - 1 else deg y) == 1) =
        rest.filter (fun y => deg y == 1) := by
      apply List.filter_congr
      intro y hy
      rw [if_neg (by rintro rfl; exact hd hy)]
    rw [hcongr, List.filter_cons]
    by_cases h1 : deg d = 1
    · rw [if_pos (by omega), if_pos (by simp [h1])]
    · rw [if_neg (by omega), if_neg (by simp [h1])]

/-! ### The Kahn-loop invariant -/

/-- Invariant of the canonical `topoLoopC` run: degrees track the number of
not-yet-emitted dependencies, the pool holds exactly the unemitted
zero-degree tasks, and every emitted task's dependencies were emitted
earlier. -/
structure TopoInv (st : Planner) (deg : String -> Int) (avail res : List String) : Prop where
  resNodup : res.Nodup
  availNodup : avail.Nodup
  disj : ∀ x ∈ res, x ∉ avail
  resSub : ∀ x ∈ res, x ∈ taskIds st
  availSub : ∀ x ∈ avail, x ∈ taskIds st
  degEq : ∀ t ∈ taskIds st,
    deg t = (((dg st t).filter (fun d => decide (d ∉ res))).length : Int)
  availIff : ∀ t ∈ taskIds st, (t ∈ avail ↔ (t ∉ res ∧ deg t = 0))
  resDeps : ∀ a ∈ res, ∀ b ∈ dg st a, b ∈ res ∧ idxOf b res < idxOf a res

theorem degZero_dgSub {st : Planner} {deg : String -> Int} {avail res : List String}
    (inv : TopoInv st deg avail res) {t : String} (ht : t ∈ taskIds st)
    (h0 : deg t = 0) : ∀ b ∈ dg st t, b ∈ res := by
  intro b hb
  have he := inv.degEq t ht
  rw [h0] at he
  have hlen : ((dg st t).filter (fun d => decide (d ∉ res))).length = 0 := by
    omega
  rw [List.length_eq_zero, List.filter_eq_nil_iff] at hlen
  have := hlen b hb
  simp at this
  exact this

theorem deg_of_res {st : Planner} {deg : String -> Int} {avail res : List String}
    (inv : TopoInv st deg avail res) {a : String} (ha : a ∈ res) : deg a = 0 := by
  have hat := inv.resSub a ha
  rw [inv.degEq a hat]
  have : (dg st a).filter (fun d => decide (d ∉ res)) = [] := by
    rw [List.filter_eq_nil_iff]
    intro b hb
    simp only [decide_eq_true_eq, Decidable.not_not]
    exact (inv.resDeps a ha b hb).1
  rw [this]
  rfl

theorem topoInv_init (st : Planner) (hwf : PlannerWF st) :
    TopoInv st (initDeg st) (initAvail st) [] := by
  unfold initAvail initDeg
  constructor
  · exact List.nodup_nil
  · exact hwf.tidsNodup.filter _
  · intro x hx; cases hx
  · intro x hx; cases hx
  · intro x hx; exact (List.mem_filter.mp hx).1
  · intro t ht
    rw [if_pos (List.elem_iff.mpr ht)]
    simp
  · intro t ht
    rw [List.mem_filter]
    constructor
    · rintro ⟨_, hb⟩
      refine ⟨List.not_mem_nil t, ?_⟩
      rw [if_pos (List.elem_iff.mpr ht)] at hb
      have := beq_iff_eq.mp hb
      rw [if_pos (List.elem_iff.mpr ht)]
      exact this
    · rintro ⟨_, h0⟩
      refine ⟨ht, ?_⟩
      rw [if_pos (List.elem_iff.mpr ht)] at h0 ⊢
      exact beq_iff_eq.mpr h0
  · intro a ha; cases ha

/-- One step of the canonical Kahn loop preserves the invariant. -/
theorem topoInv_step {st : Planner} (hwf : PlannerWF st)
    {deg : String -> Int} {avail res : List String} {cur : String} {rest : List String}
    (inv : TopoInv st deg avail res)
    (hsort : sortIds st avail = cur :: rest) :
    TopoInv st (decAll deg (rdg st cur)).1
      (rest ++ (decAll deg (rdg st cur)).2) (res ++ [cur]) := by
  have hperm : (cur :: rest).Perm avail := by
    rw [← hsort]; exact List.perm_insertionSort (prioRel st) avail
  have hcrnd : (cur :: rest).Nodup := hperm.nodup_iff.mpr inv.availNodup
  have hcur_rest : cur ∉ rest := (List.nodup_cons.mp hcrnd).1
  have hrestnd : rest.Nodup := (List.nodup_cons.mp hcrnd).2
  have hcur_avail : cur ∈ avail := hperm.mem_iff.mp (List.mem_cons_self _ _)
  have hrest_avail : ∀ x ∈ rest, x ∈ avail := fun x hx =>
    hperm.mem_iff.mp (List.mem_cons_of_mem _ hx)
  have hcur_tid : cur ∈ taskIds st := inv.availSub cur hcur_avail
  have hcur0 := (inv.availIff cur hcur_tid).mp hcur_avail
  have hdgcur : ∀ b ∈ dg st cur, b ∈ res := degZero_dgSub inv hcur_tid hcur0.2
  have hcur_nrdg : cur ∉ rdg st cur := by
    intro h
    exact hcur0.1 (hdgcur cur ((hwf.rdgIff cur cur).mp h).2)
  have hzeros : (decAll deg (rdg st cur)).2 =
      (rdg st cur).filter (fun d => deg d == 1) :=
    decAll_snd (hwf.rdgNodup cur)
  have hfst : ∀ x, (decAll deg (rdg st cur)).1 x =
      if x ∈ rdg st cur then deg x - 1 else deg x :=
    decAll_fst (hwf.rdgNodup cur)
  have hmemz : ∀ x, x ∈ (decAll deg (rdg st cur)).2 ↔
      (x ∈ rdg st cur ∧ deg x = 1) := by
    intro x
    rw [hzeros, List.mem_filter]
    exact and_congr_right (fun _ => by rw [beq_iff_eq])
  have hmemres1 : ∀ x, x ∈ res ++ [cur] ↔ (x ∈ res ∨ x = cur) := by
    intro x; simp
  have hrdg_iff : ∀ t, t ∈ taskIds st -> (t ∈ rdg st cur ↔ cur ∈ dg st t) := by
    intro t ht
    rw [hwf.rdgIff cur t]
    exact ⟨fun h => h.2, fun h => ⟨ht, h⟩⟩
  have hrest_facts : ∀ t ∈ rest, t ∉ res ∧ deg t = 0 ∧ t ≠ cur ∧ t ∉ rdg st cur := by
    intro t htr
    have hta : t ∈ avail := hrest_avail t htr
    have htt : t ∈ taskIds st := inv.availSub t hta
    have h1 := (inv.availIff t htt).mp hta
    refine ⟨h1.1, h1.2, fun he => hcur_rest (he ▸ htr), fun hin => ?_⟩
    exact hcur0.1 (degZero_dgSub inv htt h1.2 cur ((hrdg_iff t htt).mp hin))
  have hzero_facts : ∀ t, t ∈ (decAll deg (rdg st cur)).2 ->
      t ∉ res ∧ t ≠ cur := by
    intro t htz
    rcases (hmemz t).mp htz with ⟨_, hd1⟩
    constructor
    · intro hres
      rw [deg_of_res inv hres] at hd1
      exact absurd hd1 (by norm_num)
    · intro he
      rw [he, hcur0.2] at hd1
      exact absurd hd1 (by norm_num)
  constructor
  · exact List.Nodup.append inv.resNodup (List.nodup_singleton cur)
      (fun x hx hc => hcur0.1 ((List.mem_singleton.mp hc) ▸ hx))
  · refine List.Nodup.append hrestnd (hzeros ▸ ((hwf.rdgNodup cur).filter _)) ?_
    intro x hx hz
    rcases hrest_facts x hx with ⟨_, h0, _, _⟩
    rcases (hmemz x).mp hz with ⟨_, h1⟩
    rw [h0] at h1
    exact absurd h1 (by norm_num)
  · intro x hx
    rw [hmemres1 x] at hx
    rw [List.mem_append]
    rcases hx with hx | hx
    · rintro (hr | hz)
      · exact inv.disj x hx (hrest_avail x hr)
      · rcases (hmemz x).mp hz with ⟨_, h1⟩
        rw [deg_of_res inv hx] at h1
        exact absurd h1 (by norm_num)
    · subst hx
      rintro (hr | hz)
      · exact hcur_rest hr
      · exact hcur_nrdg ((hmemz x).mp hz).1
  · intro x hx
    rw [hmemres1 x] at hx
    rcases hx with hx | hx
    · exact inv.resSub x hx
    · exact hx ▸ hcur_tid
  · intro x hx
    rcases List.mem_append.mp hx with hx | hx
    · exact inv.availSub x (hrest_avail x hx)
    · exact ((hwf.rdgIff cur x).mp ((hmemz x).mp hx).1).1
  · intro t ht
    rw [hfst t]
    have hbase := inv.degEq t ht
    have hsplit : (dg st t).filter (fun d => decide (d ∉ res ++ [cur])) =
        ((dg st t).filter (fun d => decide (d ∉ res))).filter
          (fun d => decide (d ≠ cur)) := by
      rw [List.filter_filter]
      apply List.filter_congr
      intro x _
      by_cases hxr : x ∈ res
      · simp [hxr]
      · by_cases hxc : x = cur <;> simp [hxr, hxc]
    by_cases hin : t ∈ rdg st cur
    · rw [if_pos hin]
      have hcurdg : cur ∈ dg st t := (hrdg_iff t ht).mp hin
      have hcur_mem_filter : cur ∈ (dg st t).filter (fun d => decide (d ∉ res)) := by
        rw [List.mem_filter]
        exact ⟨hcurdg, by simp [hcur0.1]⟩
      have hnd : ((dg st t).filter (fun d => decide (d ∉ res))).Nodup :=
        (hwf.dgNodup t).filter _
      have herase := List.length_erase_of_mem hcur_mem_filter
      rw [hnd.erase_eq_filter cur] at herase
      have hfeq : ((dg st t).filter (fun d => decide (d ∉ res))).filter
          (fun d => decide (d ≠ cur)) =
          ((dg st t).filter (fun d => decide (d ∉ res))).filter
          (fun x => x != cur) := by
        apply List.filter_congr
        intro x _
        by_cases hxc : x = cur <;> simp [hxc]
      have hpos : 0 < ((dg st t).filter (fun d => decide (d ∉ res))).length :=
        List.length_pos.mpr (List.ne_nil_of_mem hcur_mem_filter)
      rw [hsplit, hfeq, herase, hbase]
      omega
    · rw [if_neg hin]
      have hcurdg : cur ∉ dg st t := fun h => hin ((hrdg_iff t ht).mpr h)
      have hkeep : ((dg st t).filter (fun d => decide (d ∉ res))).filter
          (fun d => decide (d ≠ cur)) =
          (dg st t).filter (fun d => decide (d ∉ res)) := by
        rw [List.filter_eq_self]
        intro x hx
        have hxdg := (List.mem_filter.mp hx).1
        have hne : x ≠ cur := fun he => hcurdg (he ▸ hxdg)
        simp [hne]
      rw [hsplit, hkeep, hbase]
  · intro t ht
    constructor
    · intro hmem
      rcases List.mem_append.mp hmem with hr | hz
      · rcases hrest_facts t hr with ⟨hnr, h0, hnc, hnrdg⟩
        refine ⟨fun hm => ?_, ?_⟩
        · rcases (hmemres1 t).mp hm with h | h
          · exact hnr h
          · exact hnc h
        · rw [hfst t, if_neg hnrdg]
          exact h0
      · rcases (hmemz t).mp hz with ⟨hrdgm, h1⟩
        rcases hzero_facts t hz with ⟨hnr, hnc⟩
        refine ⟨fun hm => ?_, ?_⟩
        · rcases (hmemres1 t).mp hm with h | h
          · exact hnr h
          · exact hnc h
        · rw [hfst t, if_pos hrdgm, h1]
          rfl
    · rintro ⟨hnr1, h0⟩
      have hnres : t ∉ res := fun h => hnr1 ((hmemres1 t).mpr (Or.inl h))
      have hncur : t ≠ cur := fun h => hnr1 ((hmemres1 t).mpr (Or.inr h))
      rw [hfst t] at h0
      by_cases hin : t ∈ rdg st cur
      · rw [if_pos hin] at h0
        refine List.mem_append.mpr (Or.inr ((hmemz t).mpr ⟨hin, by omega⟩))
      · rw [if_neg hin] at h0
        have hta : t ∈ avail := (inv.availIff t ht).mpr ⟨hnres, h0⟩
        rcases List.mem_cons.mp (hperm.mem_iff.mpr hta) with h | h
        · exact absurd h hncur
        · exact List.mem_append.mpr (Or.inl h)
  · intro a ha b hb
    rcases (hmemres1 a).mp ha with ha' | ha'
    · rcases inv.resDeps a ha' b hb with ⟨hbres, hlt⟩
      refine ⟨(hmemres1 b).mpr (Or.inl hbres), ?_⟩
      rw [idxOf_append_mem hbres, idxOf_append_mem ha']
      exact hlt
    · subst ha'
      have hbres : b ∈ res := hdgcur b hb
      refine ⟨(hmemres1 b).mpr (Or.inl hbres), ?_⟩
      rw [idxOf_append_mem hbres, idxOf_append_self hcur0.1]
      exact idxOf_lt_length hbres

/-! ### Consequences of the invariant: the emission list is a topological
order, and cycles force the `Circular dependency detected!` error -/

/-- Facts about the final emission list. -/
structure TopoRes (st : Planner) (res : List String) : Prop where
  nodup : res.Nodup
  sub : ∀ x ∈ res, x ∈ taskIds st
  deps : ∀ a ∈ res, ∀ b ∈ dg st a, b ∈ res ∧ idxOf b res < idxOf a res

theorem topoLoop_res {st : Planner} (hwf : PlannerWF st) :
    ∀ (fuel : Nat) (deg : String -> Int) (avail res : List String),
      TopoInv st deg avail res ->
      TopoRes st (topoLoopC st (fun _ l => l) fuel deg avail res) := by
  intro fuel
  induction fuel with
  | zero =>
    intro deg avail res inv
    exact ⟨inv.resNodup, inv.resSub, inv.resDeps⟩
  | succ f ih =>
    intro deg avail res inv
    rw [topoLoopC]
    cases hs : sortIds st avail with
    | nil => exact ⟨inv.resNodup, inv.resSub, inv.resDeps⟩
    | cons cur rest => exact ih _ _ _ (topoInv_step hwf inv hs)

theorem topoResult_res {st : Planner} (hwf : PlannerWF st) :
    TopoRes st (topoResult (fun _ l => l) st) :=
  topoLoop_res hwf _ _ _ _ (topoInv_init st hwf)

theorem transGen_idx {st : Planner} {res : List String} (hres : TopoRes st res) :
    ∀ {a b : String}, Relation.TransGen (depEdge st) a b -> a ∈ res ->
      b ∈ res ∧ idxOf b res < idxOf a res := by
  intro a b h
  induction h with
  | single hab =>
    intro ha
    exact hres.deps a ha _ hab.2.2
  | tail _ hbc ih =>
    intro ha
    rcases ih ha with ⟨hb, hlt⟩
    rcases hres.deps _ hb _ hbc.2.2 with ⟨hc, hlt2⟩
    exact ⟨hc, lt_trans hlt2 hlt⟩

theorem cycle_member_missing {st : Planner} {res : List String}
    (hres : TopoRes st res) {t : String}
    (htg : Relation.TransGen (depEdge st) t t) : t ∉ res := by
  intro hin
  have := (transGen_idx hres htg hin).2
  omega

/-- If some task is never emitted, the topological sort raises the cycle
error (it emits fewer ids than there are tasks). -/
theorem topoSortC_error_of_missing {st : Planner} (hwf : PlannerWF st)
    {t : String} (htid : t ∈ taskIds st)
    (hmiss : t ∉ topoResult (fun _ l => l) st) :
    topoSortC (fun _ l => l) st = Except.error "Circular dependency detected!" := by
  have hR := topoResult_res hwf
  have hlen : (topoResult (fun _ l => l) st).length < (taskIds st).length := by
    have hsub : (t :: topoResult (fun _ l => l) st) ⊆ taskIds st := by
      intro x hx
      rcases List.mem_cons.mp hx with rfl | hx
      · exact htid
      · exact hR.sub x hx
    have hnd : (t :: topoResult (fun _ l => l) st).Nodup :=
      List.nodup_cons.mpr ⟨hmiss, hR.nodup⟩
    have hle := (hnd.subperm hsub).length_le
    simp only [List.length_cons] at hle
    omega
  unfold topoSortC
  rw [if_pos (bne_iff_ne.mpr (Nat.ne_of_lt hlen))]

/-- A dependency cycle makes the topological sort emit fewer ids than there
are tasks, which raises the cycle error. -/
theorem topoSortC_cycle_error {st : Planner} (hwf : PlannerWF st)
    (hcyc : DepCycle st) :
    topoSortC (fun _ l => l) st = Except.error "Circular dependency detected!" := by
  obtain ⟨t, htg⟩ := hcyc
  have hsrc : ∀ a b : String, Relation.TransGen (depEdge st) a b ->
      a ∈ taskIds st := by
    intro a b h
    induction h with
    | single h => exact h.1
    | tail _ _ ih => exact ih
  exact topoSortC_error_of_missing hwf (hsrc t t htg)
    (cycle_member_missing (topoResult_res hwf) htg)

/-! ### Structure of loaded states (`load_data` well-formedness) -/

theorem lookup_graphAdd (g : List (String × List String)) (k v x : String) :
    ((graphAdd g k v).lookup x).getD [] =
      if x = k then addSet ((g.lookup x).getD []) v
      else (g.lookup x).getD [] := by
  induction g with
  | nil =>
    by_cases h : x = k
    · subst h; simp [graphAdd, addSet, List.lookup]
    · have hb : (x == k) = false := beq_eq_false_iff_ne.mpr h
      have hb2 : (k == x) = false := beq_eq_false_iff_ne.mpr (Ne.symm h)
      simp [graphAdd, List.lookup, hb, hb2, h]
  | cons p rest ih =>
    obtain ⟨k0, vs⟩ := p
    by_cases h0 : k0 = k
    · subst h0
      by_cases hx : x = k0
      · subst hx; simp [graphAdd, List.lookup]
      · have hb : (x == k0) = false := beq_eq_false_iff_ne.mpr hx
        have hb2 : (k0 == x) = false := beq_eq_false_iff_ne.mpr (Ne.symm hx)
        simp [graphAdd, List.lookup, hb, hb2, hx]
    · by_cases hx : x = k0
      · subst hx
        simp [graphAdd, h0, List.lookup, ih, Ne.symm h0]
      · have hb : (x == k0) = false := beq_eq_false_iff_ne.mpr hx
        have hb2 : (k0 == x) = false := beq_eq_false_iff_ne.mpr (Ne.symm hx)
        simp [graphAdd, h0, List.lookup, hb, hb2, hx, ih]

theorem keys_assocReplace {β : Type} (m : List (String × β)) (k : String) (v : β) :
    (assocReplace m k v).map Prod.fst =
      if k ∈ m.map Prod.fst then m.map Prod.fst else m.map Prod.fst ++ [k] := by
  induction m with
  | nil => simp [assocReplace]
  | cons p rest ih =>
    obtain ⟨k0, v0⟩ := p
    by_cases h0 : k0 = k
    · subst h0; simp [assocReplace]
    · simp only [assocReplace, if_neg h0, List.map_cons, ih]
      by_cases hk : k ∈ rest.map Prod.fst
      · rw [if_pos hk, if_pos (by exact List.mem_cons_of_mem _ hk)]
      · rw [if_neg hk, if_neg (by
          intro hm
          rcases List.mem_cons.mp hm with hm | hm
          · exact h0 hm.symm
          · exact hk hm)]
        simp

theorem mem_assocReplace {β : Type} {m : List (String × β)} {k : String} {v : β}
    {p : String × β} (h : p ∈ assocReplace m k v) : p ∈ m ∨ p = (k, v) := by
  induction m with
  | nil => simpa [assocReplace] using h
  | cons q rest ih =>
    obtain ⟨k0, v0⟩ := q
    by_cases h0 : k0 = k
    · subst h0
      rcases List.mem_cons.mp (by simpa [assocReplace] using h) with h1 | h1
      · exact Or.inr (h1 ▸ rfl)
      · exact Or.inl (List.mem_cons_of_mem _ h1)
    · rcases List.mem_cons.mp (by simpa [assocReplace, h0] using h) with h1 | h1
      · exact Or.inl (h1 ▸ List.mem_cons_self _ _)
      · rcases ih h1 with h2 | h2
        · exact Or.inl (List.mem_cons_of_mem _ h2)
        · exact Or.inr h2

theorem lookup_of_mem_nodup {β : Type} {m : List (String × β)}
    (hnd : (m.map Prod.fst).Nodup) {p : String × β} (hp : p ∈ m) :
    m.lookup p.1 = some p.2 := by
  induction m with
  | nil => cases hp
  | cons q rest ih =>
    obtain ⟨k0, v0⟩ := q
    have hnd1 : (k0 :: rest.map Prod.fst).Nodup := by simpa using hnd
    have hnd2 := List.nodup_cons.mp hnd1
    rcases List.mem_cons.mp hp with h | h
    · subst h
      simp [List.lookup]
    · have hne : k0 ≠ p.1 := by
        intro he
        exact hnd2.1 (he ▸ List.mem_map.mpr ⟨p, h, rfl⟩)
      have hb : (p.1 == k0) = false := beq_eq_false_iff_ne.mpr (Ne.symm hne)
      have hb2 : (k0 == p.1) = false := beq_eq_false_iff_ne.mpr hne
      simp only [List.lookup, hb, hb2]
      exact ih hnd2.2 h

theorem nodup_lookup_graphAdd {g : List (String × List String)} {k v : String}
    (h : ∀ x, ((g.lookup x).getD []).Nodup) :
    ∀ x, (((graphAdd g k v).lookup x).getD []).Nodup := by
  intro x
  rw [lookup_graphAdd]
  by_cases hx : x = k
  · rw [if_pos hx]; exact addSet_nodup (h x)
  · rw [if_neg hx]; exact h x

theorem mem_lookup_graphAdd {g : List (String × List String)} {k v x y : String} :
    y ∈ ((graphAdd g k v).lookup x).getD [] ↔
      (y ∈ (g.lookup x).getD [] ∨ (x = k ∧ y = v)) := by
  rw [lookup_graphAdd]
  by_cases hx : x = k
  · rw [if_pos hx, mem_addSet]
    constructor
    · rintro (h | h)
      · exact Or.inl h
      · exact Or.inr ⟨hx, h⟩
    · rintro (h | ⟨_, h⟩)
      · exact Or.inl h
      · exact Or.inr h
  · rw [if_neg hx]
    constructor
    · exact Or.inl
    · rintro (h | ⟨he, _⟩)
      · exact h
      · exact absurd he hx

theorem addEdges_tasks (tid : String) (ds : List String) (st : Planner) :
    (addEdges tid ds st).tasks = st.tasks := by
  induction ds generalizing st with
  | nil => rfl
  | cons d rest ih => exact ih _

theorem dg_addEdges (tid : String) (ds : List String) (st : Planner) (x y : String) :
    y ∈ dg (addEdges tid ds st) x ↔ (y ∈ dg st x ∨ (x = tid ∧ y ∈ ds)) := by
  induction ds generalizing st with
  | nil => simp [addEdges]
  | cons d rest ih =>
    show y ∈ dg (addEdges tid rest _) x ↔ _
    rw [ih]
    show y ∈ ((graphAdd st.dependency_graph tid d).lookup x).getD [] ∨ _ ↔ _
    rw [mem_lookup_graphAdd]
    show (y ∈ dg st x ∨ (x = tid ∧ y = d)) ∨ (x = tid ∧ y ∈ rest) ↔ _
    constructor
    · rintro ((h | ⟨he, hy⟩) | ⟨he, hy⟩)
      · exact Or.inl h
      · exact Or.inr ⟨he, hy ▸ List.mem_cons_self _ _⟩
      · exact Or.inr ⟨he, List.mem_cons_of_mem _ hy⟩
    · rintro (h | ⟨he, hy⟩)
      · exact Or.inl (Or.inl h)
      · rcases List.mem_cons.mp hy with hy | hy
        · exact Or.inl (Or.inr ⟨he, hy⟩)
        · exact Or.inr ⟨he, hy⟩

theorem rdg_addEdges (tid : String) (ds : List String) (st : Planner) (x y : String) :
    y ∈ rdg (addEdges tid ds st) x ↔ (y ∈ rdg st x ∨ (y = tid ∧ x ∈ ds)) := by
  induction ds generalizing st with
  | nil => simp [addEdges]
  | cons d rest ih =>
    show y ∈ rdg (addEdges tid rest _) x ↔ _
    rw [ih]
    show y ∈ ((graphAdd st.reverse_dependency_graph d tid).lookup x).getD [] ∨ _ ↔ _
    rw [mem_lookup_graphAdd]
    constructor
    · rintro ((h | ⟨he, hy⟩) | ⟨hy, he⟩)
      · exact Or.inl h
      · exact Or.inr ⟨hy, he ▸ List.mem_cons_self _ _⟩
      · exact Or.inr ⟨hy, List.mem_cons_of_mem _ he⟩
    · rintro (h | ⟨hy, he⟩)
      · exact Or.inl (Or.inl h)
      · rcases List.mem_cons.mp he with he | he
        · exact Or.inl (Or.inr ⟨he, hy⟩)
        · exact Or.inr ⟨hy, he⟩

theorem dg_addEdges_nodup : ∀ (ds : List String) (st : Planner) (tid : String),
    (∀ x, (dg st x).Nodup) -> ∀ x, (dg (addEdges tid ds st) x).Nodup := by
  intro ds
  induction ds with
  | nil => intro st tid h; exact h
  | cons d rest ih =>
    intro st tid h
    exact ih ⟨st.tasks, graphAdd st.dependency_graph tid d,
      graphAdd st.reverse_dependency_graph d tid⟩ tid (nodup_lookup_graphAdd h)

theorem rdg_addEdges_nodup : ∀ (ds : List String) (st : Planner) (tid : String),
    (∀ x, (rdg st x).Nodup) -> ∀ x, (rdg (addEdges tid ds st) x).Nodup := by
  intro ds
  induction ds with
  | nil => intro st tid h; exact h
  | cons d rest ih =>
    intro st tid h
    exact ih ⟨st.tasks, graphAdd st.dependency_graph tid d,
      graphAdd st.reverse_dependency_graph d tid⟩ tid (nodup_lookup_graphAdd h)

/-- Invariant of the `load_data` fold. -/
structure LoadInv (st : Planner) : Prop where
  tidsNodup : (taskIds st).Nodup
  dgNodup : ∀ t, (dg st t).Nodup
  rdgNodup : ∀ t, (rdg st t).Nodup
  symm : ∀ a b, b ∈ rdg st a ↔ a ∈ dg st b
  dgKeys : ∀ t, dg st t ≠ [] -> t ∈ taskIds st
  keyEq : ∀ p ∈ st.tasks, p.2.task_id = p.1
  taskDeps : ∀ p ∈ st.tasks, ∀ d ∈ p.2.depends_on, d ∈ dg st p.1

theorem loadInv_empty : LoadInv ⟨[], [], []⟩ := by
  constructor
  · exact List.nodup_nil
  · intro t; simp [dg, List.lookup]
  · intro t; simp [rdg, List.lookup]
  · intro a b; simp [dg, rdg, List.lookup]
  · intro t h; exact absurd rfl h
  · intro p hp; cases hp
  · intro p hp; cases hp

theorem loadInv_loadEntry {st : Planner} (h : LoadInv st)
    (fpMap : List (String × List FilePattern)) (e : DepEntry) :
    LoadInv (loadEntry fpMap st e) := by
  set task : Task :=
    ⟨e.task_id, e.size, e.expected_runtime_min, e.depends_on, [],
     (fpMap.lookup e.task_id).getD [], e.tags, e.enabler⟩ with htask
  set st1 : Planner :=
    ⟨assocReplace st.tasks e.task_id task, st.dependency_graph,
     st.reverse_dependency_graph⟩ with hst1
  have htasks2 : (loadEntry fpMap st e).tasks = st1.tasks := addEdges_tasks _ _ _
  have htids2 : taskIds (loadEntry fpMap st e) = taskIds st1 := by
    unfold taskIds
    rw [htasks2]
  have htids1 : taskIds st1 =
      if e.task_id ∈ taskIds st then taskIds st else taskIds st ++ [e.task_id] :=
    keys_assocReplace st.tasks e.task_id task
  have hmono : ∀ t ∈ taskIds st, t ∈ taskIds st1 := by
    intro t ht
    rw [htids1]
    by_cases hk : e.task_id ∈ taskIds st
    · rw [if_pos hk]; exact ht
    · rw [if_neg hk]; exact List.mem_append.mpr (Or.inl ht)
  have hself : e.task_id ∈ taskIds st1 := by
    rw [htids1]
    by_cases hk : e.task_id ∈ taskIds st
    · rw [if_pos hk]; exact hk
    · rw [if_neg hk]; exact List.mem_append.mpr (Or.inr (List.mem_singleton.mpr rfl))
  have hdg1 : ∀ x, dg st1 x = dg st x := fun x => rfl
  have hrdg1 : ∀ x, rdg st1 x = rdg st x := fun x => rfl
  have hdg2 : ∀ x y, y ∈ dg (loadEntry fpMap st e) x ↔
      (y ∈ dg st x ∨ (x = e.task_id ∧ y ∈ e.depends_on)) := by
    intro x y
    show y ∈ dg (addEdges e.task_id e.depends_on st1) x ↔ _
    rw [dg_addEdges, hdg1]
  have hrdg2 : ∀ x y, y ∈ rdg (loadEntry fpMap st e) x ↔
      (y ∈ rdg st x ∨ (y = e.task_id ∧ x ∈ e.depends_on)) := by
    intro x y
    show y ∈ rdg (addEdges e.task_id e.depends_on st1) x ↔ _
    rw [rdg_addEdges, hrdg1]
  constructor
  · rw [htids2, htids1]
    by_cases hk : e.task_id ∈ taskIds st
    · rw [if_pos hk]; exact h.tidsNodup
    · rw [if_neg hk]
      exact List.Nodup.append h.tidsNodup (List.nodup_singleton _)
        (fun x hx hc => hk ((List.mem_singleton.mp hc) ▸ hx))
  · exact dg_addEdges_nodup e.depends_on st1 e.task_id h.dgNodup
  · exact rdg_addEdges_nodup e.depends_on st1 e.task_id h.rdgNodup
  · intro a b
    rw [hdg2, hrdg2, h.symm]
  · intro t hne
    rcases List.exists_mem_of_ne_nil _ hne with ⟨y, hy⟩
    rw [htids2]
    rcases (hdg2 t y).mp hy with hy | ⟨he, _⟩
    · exact hmono t (h.dgKeys t (List.ne_nil_of_mem hy))
    · exact he ▸ hself
  · intro p hp
    rw [htasks2] at hp
    rcases mem_assocReplace hp with hp | hp
    · exact h.keyEq p hp
    · rw [hp]
  · intro p hp d hd
    rw [htasks2] at hp
    rw [hdg2]
    rcases mem_assocReplace hp with hp | hp
    · exact Or.inl (h.taskDeps p hp d hd)
    · refine Or.inr ⟨by rw [hp], ?_⟩
      rw [hp] at hd
      exact hd

theorem loadInv_fold (fpMap : List (String × List FilePattern)) :
    ∀ (deps : List DepEntry) (st : Planner), LoadInv st ->
      LoadInv (deps.foldl (loadEntry fpMap) st) := by
  intro deps
  induction deps with
  | nil => intro st h; exact h
  | cons e rest ih =>
    intro st h
    exact ih _ (loadInv_loadEntry h fpMap e)

/-- Every state produced by `load_data` is well-formed. -/
theorem load_data_wf (deps : List DepEntry) (confs : List ConflictEntry) :
    PlannerWF (load_data deps confs) := by
  have h : LoadInv (load_data deps confs) :=
    loadInv_fold _ deps ⟨[], [], []⟩ loadInv_empty
  constructor
  · exact h.tidsNodup
  · exact h.dgNodup
  · exact h.rdgNodup
  · intro d t
    constructor
    · intro ht
      have hd := (h.symm d t).mp ht
      exact ⟨h.dgKeys t (List.ne_nil_of_mem hd), hd⟩
    · rintro ⟨_, hd⟩
      exact (h.symm d t).mpr hd
  · exact h.keyEq
  · exact h.taskDeps

/-- `getTask` returns the stored task when keys are duplicate-free. -/
theorem getTask_eq {st : Planner} (hnd : (taskIds st).Nodup)
    {p : String × Task} (hp : p ∈ st.tasks) : getTask st p.1 = p.2 := by
  unfold getTask
  rw [lookup_of_mem_nodup hnd hp]
  rfl

/-! ### Claim theorems: cycle detection and dangling dependencies -/

/-- The two-task cycle feed: A depends on B, B depends on A. -/
def depsC5 : List DepEntry :=
  [⟨"A", "M", 20, ["B"], [], false⟩, ⟨"B", "M", 20, ["A"], [], false⟩]

/-- C5: for every input whose dependency graph contains a cycle, planning
raises the cycle error (`ValueError("Circular dependency detected!")`,
the spec's `CycleError`) and produces no plan: the topological sort emits
fewer ids than the task count, and `generate_execution_plan` propagates the
error before forming any wave. -/
theorem c5_cycle_error (deps : List DepEntry) (confs : List ConflictEntry)
    (hcyc : DepCycle (load_data deps confs)) :
    generate_execution_plan (load_data deps confs) =
      Except.error "Circular dependency detected!" := by
  unfold generate_execution_plan generateC
  rw [topoSortC_cycle_error (load_data_wf deps confs) hcyc]

/-- C5 witness: the two-task cycle A⇄B raises the cycle error. -/
theorem c5_witness :
    generate_execution_plan (load_data depsC5 []) =
      Except.error "Circular dependency detected!" := by
  have h1 : depEdge (load_data depsC5 []) "A" "B" := by
    refine ⟨?_, ?_, ?_⟩ <;> decide
  have h2 : depEdge (load_data depsC5 []) "B" "A" := by
    refine ⟨?_, ?_, ?_⟩ <;> decide
  exact c5_cycle_error depsC5 []
    ⟨"A", Relation.TransGen.head h1 (Relation.TransGen.single h2)⟩

/-- The dangling-dependency feed: A depends on the missing id Z. -/
def depsC8 : List DepEntry := [⟨"A", "M", 20, ["Z"], [], false⟩]

/-- C8 counterexample: loading an input in which task A references the
missing dependency id Z does not fail — `load_data` performs no validation
(its embedding has no error outcome at all) and stores A with the dangling
reference intact; the failure surfaces only at planning time, and as the
cycle error rather than a MalformedInputError. -/
theorem c8_counterexample :
    (load_data depsC8 []).tasks =
      [("A", ⟨"A", "M", 20, ["Z"], [], [], [], false⟩)] ∧
    generate_execution_plan (load_data depsC8 []) =
      Except.error "Circular dependency detected!" := by
  exact ⟨rfl, rfl⟩

/-- C8 (amended): loading tolerates dependency ids that reference
non-existent tasks — no load-time error exists; whenever some loaded task
references a dependency id not present in the task set, the task can never
become ready and planning fails with the cycle error
(`Circular dependency detected!`), producing no plan. -/
theorem c8_dangling_dep (deps : List DepEntry) (confs : List ConflictEntry)
    (p : String × Task) (hp : p ∈ (load_data deps confs).tasks)
    (d : String) (hd : d ∈ p.2.depends_on)
    (hmiss : d ∉ taskIds (load_data deps confs)) :
    generate_execution_plan (load_data deps confs) =
      Except.error "Circular dependency detected!" := by
  have hwf := load_data_wf deps confs
  have htid : p.1 ∈ taskIds (load_data deps confs) :=
    List.mem_map.mpr ⟨p, hp, rfl⟩
  have hdg : d ∈ dg (load_data deps confs) p.1 := hwf.taskDeps p hp d hd
  have hR := topoResult_res hwf
  have hnotin : p.1 ∉ topoResult (fun _ l => l) (load_data deps confs) := by
    intro hin
    exact hmiss (hR.sub d (hR.deps p.1 hin d hdg).1)
  unfold generate_execution_plan generateC
  rw [topoSortC_error_of_missing hwf htid hnotin]

/-- C8 amended-claim witness: the dangling input loads and then fails at
planning time with the cycle error. -/
theorem c8_witness :
    generate_execution_plan (load_data depsC8 []) =
      Except.error "Circular dependency detected!" :=
  c8_dangling_dep depsC8 [] ("A", ⟨"A", "M", 20, ["Z"], [], [], [], false⟩)
    (by decide) "Z" (by decide) (by decide)

/-! ### Order-theoretic facts about the sort keys -/

theorem charListLtB_asymm : ∀ a b : List Char,
    charListLtB a b = true -> charListLtB b a = false := by
  intro a
  induction a with
  | nil =>
    intro b h
    cases b with
    | nil => simp [charListLtB] at h
    | cons c cs => simp [charListLtB]
  | cons x xs ih =>
    intro b h
    cases b with
    | nil => simp [charListLtB] at h
    | cons y ys =>
      simp only [charListLtB] at h ⊢
      by_cases hxy : x < y
      · have hyx : ¬y < x := fun h2 => lt_irrefl x (lt_trans hxy h2)
        simp [hxy, hyx]
      · by_cases hyx : y < x
        · simp [hxy, hyx] at h
        · simp [hxy, hyx] at h ⊢
          exact ih ys h

theorem charListLtB_trans : ∀ a b c : List Char, charListLtB a b = true ->
    charListLtB b c = true -> charListLtB a c = true := by
  intro a
  induction a with
  | nil =>
    intro b c hab hbc
    cases b with
    | nil => simp [charListLtB] at hab
    | cons y ys =>
      cases c with
      | nil => simp [charListLtB] at hbc
      | cons z zs => simp [charListLtB]
  | cons x xs ih =>
    intro b c hab hbc
    cases b with
    | nil => simp [charListLtB] at hab
    | cons y ys =>
      cases c with
      | nil => simp [charListLtB] at hbc
      | cons z zs =>
        simp only [charListLtB] at hab hbc ⊢
        by_cases hxy : x < y
        · by_cases hyz : y < z
          · simp [lt_trans hxy hyz]
          · by_cases hzy : z < y
            · simp [charListLtB, hyz, hzy] at hbc
            · have hyz2 : y = z := le_antisymm (not_lt.mp hzy) (not_lt.mp hyz)
              simp [hyz2 ▸ hxy]
        · by_cases hyx : y < x
          · simp [hxy, hyx] at hab
          · have hxy2 : x = y := le_antisymm (not_lt.mp hyx) (not_lt.mp hxy)
            subst hxy2
            by_cases hxz : x < z
            · simp [hxz]
            · by_cases hzx : z < x
              · simp [hxz, hzx] at hbc
              · simp [hxz, hzx] at hab hbc ⊢
                exact ih ys zs hab hbc

theorem charListLtB_connex : ∀ a b : List Char, charListLtB a b = false ->
    charListLtB b a = false -> a = b := by
  intro a
  induction a with
  | nil =>
    intro b hab _
    cases b with
    | nil => rfl
    | cons y ys => simp [charListLtB] at hab
  | cons x xs ih =>
    intro b hab hba
    cases b with
    | nil => simp [charListLtB] at hba
    | cons y ys =>
      by_cases hxy : x < y
      · simp [charListLtB, hxy] at hab
      · by_cases hyx : y < x
        · simp [charListLtB, hyx, hxy] at hba
        · have hxy2 : x = y := le_antisymm (not_lt.mp hyx) (not_lt.mp hxy)
          subst hxy2
          simp [charListLtB, lt_irrefl] at hab hba
          rw [ih ys hab hba]

theorem strLeB_total (a b : String) : strLeB a b = true ∨ strLeB b a = true := by
  unfold strLeB strLtB
  by_cases h : charListLtB b.toList a.toList = true
  · right
    rw [charListLtB_asymm _ _ h]
    rfl
  · left
    rw [Bool.not_eq_true] at h
    rw [h]
    rfl

theorem strLeB_trans {a b c : String} (hab : strLeB a b = true)
    (hbc : strLeB b c = true) : strLeB a c = true := by
  unfold strLeB strLtB at *
  rw [Bool.not_eq_eq_eq_not, Bool.not_true] at hab hbc ⊢
  by_cases hbc2 : charListLtB b.toList c.toList = true
  · by_cases hca : charListLtB c.toList a.toList = true
    · have := charListLtB_trans _ _ _ hbc2 hca
      rw [this] at hab
      exact absurd hab (by simp)
    · rw [Bool.not_eq_true] at hca
      exact hca
  · rw [Bool.not_eq_true] at hbc2
    have hbceq := charListLtB_connex _ _ hbc2 hbc
    rw [← hbceq]
    exact hab

theorem strLeB_antisymm {a b : String} (hab : strLeB a b = true)
    (hba : strLeB b a = true) : a = b := by
  unfold strLeB strLtB at hab hba
  rw [Bool.not_eq_eq_eq_not, Bool.not_true] at hab hba
  have := charListLtB_connex _ _ hba hab
  cases a with
  | mk da =>
    cases b with
    | mk db =>
      simp only [String.toList] at this
      rw [this]

theorem prioLeB_total (st : Planner) (a b : String) :
    prioLeB st a b = true ∨ prioLeB st b a = true := by
  unfold prioLeB
  rcases lt_trichotomy (-(((rdg st (getTask st a).task_id)).length : Int))
      (-(((rdg st (getTask st b).task_id)).length : Int)) with h | h | h
  · left; simp [h]
  · rcases strLeB_total (getTask st a).task_id (getTask st b).task_id with h2 | h2
    · left; simp [h, h2]
    · right; simp [h.symm, h2]
  · right; simp [h]

theorem prioLeB_trans (st : Planner) {a b c : String}
    (hab : prioLeB st a b = true) (hbc : prioLeB st b c = true) :
    prioLeB st a c = true := by
  unfold prioLeB at *
  rw [Bool.or_eq_true, Bool.and_eq_true] at hab hbc ⊢
  rcases hab with hab | ⟨hab1, hab2⟩
  · rcases hbc with hbc | ⟨hbc1, hbc2⟩
    · left
      rw [decide_eq_true_eq] at *
      omega
    · left
      rw [decide_eq_true_eq] at *
      omega
  · rcases hbc with hbc | ⟨hbc1, hbc2⟩
    · left
      rw [decide_eq_true_eq] at *
      omega
    · right
      rw [decide_eq_true_eq] at *
      exact ⟨by omega, strLeB_trans hab2 hbc2⟩

theorem prioLeB_antisymm_ids (st : Planner) {a b : String}
    (ha : (getTask st a).task_id = a) (hb : (getTask st b).task_id = b)
    (hab : prioLeB st a b = true) (hba : prioLeB st b a = true) : a = b := by
  unfold prioLeB at hab hba
  rw [Bool.or_eq_true, Bool.and_eq_true] at hab hba
  rw [ha, hb] at hab hba
  rcases hab with hab | ⟨_, hab2⟩
  · rcases hba with hba | ⟨hba1, _⟩
    · rw [decide_eq_true_eq] at *; omega
    · rw [decide_eq_true_eq] at *; omega
  · rcases hba with hba | ⟨hba1, hba2⟩
    · rw [decide_eq_true_eq] at *; omega
    · exact strLeB_antisymm hab2 hba2

instance (st : Planner) : IsTotal String (prioRel st) :=
  ⟨fun a b => prioLeB_total st a b⟩

instance (st : Planner) : IsTrans String (prioRel st) :=
  ⟨fun _ _ _ hab hbc => prioLeB_trans st hab hbc⟩

/-- Two sorted permutations of each other are equal, given antisymmetry on
the members of the first list. -/
theorem eq_of_perm_of_sorted_mem {α : Type} {r : α -> α -> Prop} :
    ∀ {l1 l2 : List α}, l1.Perm l2 -> List.Sorted r l1 -> List.Sorted r l2 ->
      (∀ a ∈ l1, ∀ b ∈ l1, r a b -> r b a -> a = b) -> l1 = l2 := by
  intro l1
  induction l1 with
  | nil =>
    intro l2 hp _ _ _
    exact hp.nil_eq
  | cons a t ih =>
    intro l2 hp hs1 hs2 hanti
    cases l2 with
    | nil => exact absurd hp.symm.nil_eq (by simp)
    | cons b t2 =>
      have hab : a = b := by
        by_cases he : a = b
        · exact he
        · have hamem : a ∈ b :: t2 := hp.mem_iff.mp (List.mem_cons_self _ _)
          have hbmem : b ∈ a :: t := hp.mem_iff.mpr (List.mem_cons_self _ _)
          have hat2 : a ∈ t2 := by
            rcases List.mem_cons.mp hamem with h | h
            · exact absurd h he
            · exact h
          have hbt : b ∈ t := by
            rcases List.mem_cons.mp hbmem with h | h
            · exact absurd h.symm he
            · exact h
          have hr1 : r a b := (List.sorted_cons.mp hs1).1 b hbt
          have hr2 : r b a := (List.sorted_cons.mp hs2).1 a hat2
          exact hanti a (List.mem_cons_self _ _) b (List.mem_cons_of_mem _ hbt)
            hr1 hr2
      subst hab
      have hpt : t.Perm t2 := hp.cons_inv
      have := ih hpt (List.sorted_cons.mp hs1).2 (List.sorted_cons.mp hs2).2
        (fun x hx y hy hr hr2 => hanti x (List.mem_cons_of_mem _ hx)
          y (List.mem_cons_of_mem _ hy) hr hr2)
      rw [this]

theorem getTask_id {st : Planner} (hwf : PlannerWF st) {x : String}
    (hx : x ∈ taskIds st) : (getTask st x).task_id = x := by
  rcases List.mem_map.mp hx with ⟨p, hp, hpx⟩
  have := getTask_eq hwf.tidsNodup hp
  rw [hpx] at this
  rw [this, hwf.keyEq p hp, hpx]

/-- Sorting by the priority key is invariant under permutation of the pool,
as long as pool members are task ids (which makes the key injective). -/
theorem sortIds_eq_of_perm {st : Planner} (hwf : PlannerWF st)
    {l1 l2 : List String} (hsub : ∀ x ∈ l1, x ∈ taskIds st)
    (hperm : l1.Perm l2) : sortIds st l1 = sortIds st l2 := by
  apply eq_of_perm_of_sorted_mem
    ((List.perm_insertionSort (prioRel st) l1).trans
      (hperm.trans (List.perm_insertionSort (prioRel st) l2).symm))
    (List.sorted_insertionSort (prioRel st) l1)
    (List.sorted_insertionSort (prioRel st) l2)
  intro a ha b hb hab hba
  have ha2 : a ∈ taskIds st :=
    hsub a ((List.perm_insertionSort (prioRel st) l1).mem_iff.mp ha)
  have hb2 : b ∈ taskIds st :=
    hsub b ((List.perm_insertionSort (prioRel st) l1).mem_iff.mp hb)
  exact prioLeB_antisymm_ids st (getTask_id hwf ha2) (getTask_id hwf hb2) hab hba

/-- The Kahn loop is invariant under the (hash-order dependent) iteration
order of `reverse_dependency_graph[current]`. -/
theorem topoLoopC_indep {st : Planner} (hwf : PlannerWF st)
    (ch1 ch2 : Nat -> List String -> List String)
    (h1 : ∀ n l, (ch1 n l).Perm l) (h2 : ∀ n l, (ch2 n l).Perm l) :
    ∀ (fuel : Nat) (deg : String -> Int) (res avail1 avail2 : List String),
      avail1.Perm avail2 -> (∀ x ∈ avail1, x ∈ taskIds st) ->
      topoLoopC st ch1 fuel deg avail1 res =
        topoLoopC st ch2 fuel deg avail2 res := by
  intro fuel
  induction fuel with
  | zero => intro deg res avail1 avail2 _ _; rfl
  | succ f ih =>
    intro deg res avail1 avail2 hperm hsub
    have hsorteq : sortIds st avail1 = sortIds st avail2 :=
      sortIds_eq_of_perm hwf hsub hperm
    have e1 : topoLoopC st ch1 (f + 1) deg avail1 res =
        (match sortIds st avail1 with
         | [] => res
         | cur :: rest =>
           topoLoopC st ch1 f (decAll deg (ch1 f (rdg st cur))).1
             (rest ++ (decAll deg (ch1 f (rdg st cur))).2) (res ++ [cur])) := rfl
    have e2 : topoLoopC st ch2 (f + 1) deg avail2 res =
        (match sortIds st avail2 with
         | [] => res
         | cur :: rest =>
           topoLoopC st ch2 f (decAll deg (ch2 f (rdg st cur))).1
             (rest ++ (decAll deg (ch2 f (rdg st cur))).2) (res ++ [cur])) := rfl
    rw [e1, e2, hsorteq]
    cases hs : sortIds st avail2 with
    | nil => rfl
    | cons cur rest =>
      show topoLoopC st ch1 f (decAll deg (ch1 f (rdg st cur))).1
          (rest ++ (decAll deg (ch1 f (rdg st cur))).2) (res ++ [cur]) =
        topoLoopC st ch2 f (decAll deg (ch2 f (rdg st cur))).1
          (rest ++ (decAll deg (ch2 f (rdg st cur))).2) (res ++ [cur])
      have hcurtid : ∀ x ∈ cur :: rest, x ∈ taskIds st := by
        intro x hx
        rw [← hs] at hx
        exact hsub x (hperm.mem_iff.mpr
          ((List.perm_insertionSort (prioRel st) avail2).mem_iff.mp hx))
      have nd1 : (ch1 f (rdg st cur)).Nodup :=
        ((h1 f (rdg st cur)).nodup_iff).mpr (hwf.rdgNodup cur)
      have nd2 : (ch2 f (rdg st cur)).Nodup :=
        ((h2 f (rdg st cur)).nodup_iff).mpr (hwf.rdgNodup cur)
      have hdeg : (decAll deg (ch1 f (rdg st cur))).1 =
          (decAll deg (ch2 f (rdg st cur))).1 := by
        funext x
        rw [decAll_fst nd1 x, decAll_fst nd2 x]
        by_cases hx : x ∈ rdg st cur
        · rw [if_pos ((h1 f (rdg st cur)).mem_iff.mpr hx),
            if_pos ((h2 f (rdg st cur)).mem_iff.mpr hx)]
        · rw [if_neg (fun hm => hx ((h1 f (rdg st cur)).mem_iff.mp hm)),
            if_neg (fun hm => hx ((h2 f (rdg st cur)).mem_iff.mp hm))]
      have hzp : ((decAll deg (ch1 f (rdg st cur))).2).Perm
          ((decAll deg (ch2 f (rdg st cur))).2) := by
        rw [decAll_snd nd1, decAll_snd nd2]
        exact ((h1 f (rdg st cur)).trans (h2 f (rdg st cur)).symm).filter _
      rw [hdeg]
      apply ih
      · exact List.Perm.append_left rest hzp
      · intro x hx
        rcases List.mem_append.mp hx with hx | hx
        · exact hcurtid x (List.mem_cons_of_mem _ hx)
        · have hxr : x ∈ rdg st cur := by
            apply (h1 f (rdg st cur)).mem_iff.mp
            rcases List.mem_filter.mp ((decAll_snd nd1) ▸ hx) with ⟨hx2, _⟩
            exact hx2
          exact ((hwf.rdgIff cur x).mp hxr).1

/-- C6: the planner is deterministic.  The only run-to-run variation in the
source is Python's hash-randomized `set` iteration order, which the
embedding exposes as the `choice` parameter of `generateC`; for every
permutation-valued `choice`, the produced plan equals the canonical one, so
two runs on identical input feeds yield identical plans (same waves, same
membership and ordering, same summary). -/
theorem c6_determinism (deps : List DepEntry) (confs : List ConflictEntry)
    (choice : Nat -> List String -> List String)
    (hch : ∀ n l, (choice n l).Perm l) :
    generateC choice (load_data deps confs) =
      generate_execution_plan (load_data deps confs) := by
  have hwf := load_data_wf deps confs
  have hloop := topoLoopC_indep hwf choice (fun _ l => l) hch
    (fun _ l => List.Perm.refl l) ((taskIds (load_data deps confs)).length)
    (initDeg (load_data deps confs)) [] (initAvail (load_data deps confs))
    (initAvail (load_data deps confs)) (List.Perm.refl _)
    (fun x hx => by
      unfold initAvail at hx
      exact (List.mem_filter.mp hx).1)
  have htopo : topoSortC choice (load_data deps confs) =
      topoSortC (fun _ l => l) (load_data deps confs) := by
    unfold topoSortC topoResult
    rw [hloop]
  unfold generate_execution_plan generateC
  rw [htopo]

/-- C6 witness: reversing every set-iteration order leaves the plan of the
three-task example unchanged. -/
theorem c6_witness :
    generateC (fun _ l => l.reverse) (load_data depsC1 confsC1) =
      generate_execution_plan (load_data depsC1 confsC1) :=
  c6_determinism depsC1 confsC1 (fun _ l => l.reverse)
    (fun _ l => List.reverse_perm l)

/-! ### Wave-loop bookkeeping -/

/-- The ids of one wave. -/
def waveIds (w : Wave) : List String := w.tasks.map WaveTask.task_id

/-- The ids of all waves, in order. -/
def allIds (ws : List Wave) : List String := (ws.map waveIds).flatten

theorem allIds_append (ws : List Wave) (w : Wave) :
    allIds (ws ++ [w]) = allIds ws ++ waveIds w := by
  unfold allIds
  rw [List.map_append, List.flatten_append]
  simp

theorem mem_allIds {ws : List Wave} {x : String} :
    x ∈ allIds ws ↔ ∃ w ∈ ws, x ∈ waveIds w := by
  unfold allIds
  rw [List.mem_flatten]
  constructor
  · rintro ⟨l, hl, hx⟩
    rcases List.mem_map.mp hl with ⟨w, hw, rfl⟩
    exact ⟨w, hw, hx⟩
  · rintro ⟨w, hw, hx⟩
    exact ⟨waveIds w, List.mem_map.mpr ⟨w, hw, rfl⟩, hx⟩

theorem packLoop_out (st : Planner) :
    ∀ (cands : List Task) (acc : List WaveTask) (used : List String),
      ∀ wt ∈ (packLoop st cands acc used).1,
        wt ∈ acc ∨ ∃ t ∈ cands, wt = mkWaveTask t := by
  intro cands
  induction cands with
  | nil =>
    intro acc used wt hwt
    exact Or.inl hwt
  | cons t rest ih =>
    intro acc used wt hwt
    unfold packLoop at hwt
    by_cases h1 : used.contains t.task_id
    · rw [if_pos h1] at hwt
      rcases ih acc used wt hwt with h | ⟨t2, ht2, he⟩
      · exact Or.inl h
      · exact Or.inr ⟨t2, List.mem_cons_of_mem _ ht2, he⟩
    · rw [if_neg h1] at hwt
      by_cases h2 : conflictsWithSelected st t acc
      · rw [if_pos h2] at hwt
        rcases ih acc used wt hwt with h | ⟨t2, ht2, he⟩
        · exact Or.inl h
        · exact Or.inr ⟨t2, List.mem_cons_of_mem _ ht2, he⟩
      · rw [if_neg h2] at hwt
        rcases ih _ _ wt hwt with h | ⟨t2, ht2, he⟩
        · rcases List.mem_append.mp h with h | h
          · exact Or.inl h
          · exact Or.inr ⟨t, List.mem_cons_self _ _, List.mem_singleton.mp h⟩
        · exact Or.inr ⟨t2, List.mem_cons_of_mem _ ht2, he⟩

theorem packLoop_nodup (st : Planner) :
    ∀ (cands : List Task) (acc : List WaveTask) (used : List String),
      (∀ wt ∈ acc, wt.task_id ∈ used) ->
      (acc.map WaveTask.task_id).Nodup ->
      ((packLoop st cands acc used).1.map WaveTask.task_id).Nodup := by
  intro cands
  induction cands with
  | nil =>
    intro acc used _ hnd
    exact hnd
  | cons t rest ih =>
    intro acc used hsup hnd
    unfold packLoop
    by_cases h1 : used.contains t.task_id
    · rw [if_pos h1]
      exact ih acc used hsup hnd
    · rw [if_neg h1]
      by_cases h2 : conflictsWithSelected st t acc
      · rw [if_pos h2]
        exact ih acc used hsup hnd
      · rw [if_neg h2]
        apply ih
        · intro wt hwt
          rcases List.mem_append.mp hwt with h | h
          · exact List.mem_append.mpr (Or.inl (hsup wt h))
          · rw [List.mem_singleton.mp h]
            exact List.mem_append.mpr (Or.inr (List.mem_singleton.mpr rfl))
        · rw [List.map_append]
          refine List.Nodup.append hnd (by simp [mkWaveTask]) ?_
          intro x hx hx2
          simp only [List.map_cons, List.map_nil, mkWaveTask] at hx2
          rcases List.mem_singleton.mp hx2 with rfl
          rcases List.mem_map.mp hx with ⟨wt, hwt, hid⟩
          exact h1 (List.elem_iff.mpr (hid ▸ hsup wt hwt))

/-- Facts about every task dict packed in the current iteration: it is the
dict of a loaded, not-yet-completed task all of whose dependencies are
completed. -/
theorem packed_facts {st : Planner} (hwf : PlannerWF st)
    {sorted completed : List String}
    (hsorted : ∀ x ∈ sorted, x ∈ taskIds st) :
    ∀ wt ∈ (packLoop st
        (List.insertionSort availRel (waveAvail st sorted completed)) [] []).1,
      wt.task_id ∈ taskIds st ∧ wt = mkWaveTask (getTask st wt.task_id) ∧
      wt.task_id ∉ completed ∧
      (∀ d ∈ (getTask st wt.task_id).depends_on, d ∈ completed) := by
  intro wt hwt
  rcases packLoop_out st _ [] [] wt hwt with h | ⟨t, ht, he⟩
  · cases h
  · have htavail : t ∈ waveAvail st sorted completed :=
      (List.perm_insertionSort availRel _).mem_iff.mp ht
    unfold waveAvail at htavail
    rcases List.mem_map.mp htavail with ⟨id, hid, hge⟩
    rcases List.mem_filter.mp hid with ⟨hid_sorted, hcond⟩
    rw [Bool.and_eq_true] at hcond
    have hidtid : id ∈ taskIds st := hsorted id hid_sorted
    have hwtid : wt.task_id = id := by
      rw [he, ← hge]
      exact getTask_id hwf hidtid
    have hnotc : id ∉ completed := by
      intro hc
      have h1 := hcond.1
      rw [Bool.not_eq_true'] at h1
      have h2 : completed.contains id = true := List.elem_iff.mpr hc
      rw [h1] at h2
      exact Bool.false_ne_true h2
    have hdeps : ∀ d ∈ (getTask st id).depends_on, d ∈ completed := by
      intro d hd
      have h2 := hcond.2
      rw [List.all_eq_true] at h2
      exact List.elem_iff.mp (h2 d hd)
    rw [hwtid]
    exact ⟨hidtid, by rw [he, ← hge], hnotc, hdeps⟩

/-- Invariant of the wave loop. -/
structure WaveInv (st : Planner) (completed : List String) (acc : List Wave) : Prop where
  hc : ∀ x, x ∈ completed ↔ x ∈ allIds acc
  nd : (allIds acc).Nodup
  sub : ∀ x ∈ allIds acc, x ∈ taskIds st
  numle : ∀ w ∈ acc, w.wave_number ≤ acc.length
  deps : ∀ w ∈ acc, ∀ wt ∈ w.tasks, ∀ d ∈ (getTask st wt.task_id).depends_on,
    ∃ w2 ∈ acc, d ∈ waveIds w2 ∧ w2.wave_number < w.wave_number
  task : ∀ w ∈ acc, ∀ wt ∈ w.tasks,
    wt.task_id ∈ taskIds st ∧ wt = mkWaveTask (getTask st wt.task_id)
  dur : ∀ w ∈ acc, w.estimated_wave_time_min =
    listMaxD (w.tasks.map WaveTask.expected_runtime_min) ∧ w.tasks ≠ []

/-- What holds of the final wave list. -/
structure WaveOut (st : Planner) (W : List Wave) : Prop where
  cover : ∀ x ∈ taskIds st, x ∈ allIds W
  nd : (allIds W).Nodup
  sub : ∀ x ∈ allIds W, x ∈ taskIds st
  deps : ∀ w ∈ W, ∀ wt ∈ w.tasks, ∀ d ∈ (getTask st wt.task_id).depends_on,
    ∃ w2 ∈ W, d ∈ waveIds w2 ∧ w2.wave_number < w.wave_number
  task : ∀ w ∈ W, ∀ wt ∈ w.tasks,
    wt.task_id ∈ taskIds st ∧ wt = mkWaveTask (getTask st wt.task_id)
  dur : ∀ w ∈ W, w.estimated_wave_time_min =
    listMaxD (w.tasks.map WaveTask.expected_runtime_min) ∧ w.tasks ≠ []

theorem waveOut_of_done {st : Planner} {completed : List String} {acc : List Wave}
    (inv : WaveInv st completed acc)
    (hdone : setEqB completed (taskIds st) = true) : WaveOut st acc := by
  have hcov : ∀ x ∈ taskIds st, x ∈ completed := by
    unfold setEqB at hdone
    rw [Bool.and_eq_true] at hdone
    have h2 := hdone.2
    rw [List.all_eq_true] at h2
    intro x hx
    exact List.elem_iff.mp (h2 x hx)
  exact ⟨fun x hx => (inv.hc x).mp (hcov x hx), inv.nd, inv.sub, inv.deps,
    inv.task, inv.dur⟩

theorem waveInv_step {st : Planner} {completed : List String} {acc : List Wave}
    {wts : List WaveTask} (inv : WaveInv st completed acc)
    (hfacts : ∀ wt ∈ wts,
      wt.task_id ∈ taskIds st ∧ wt = mkWaveTask (getTask st wt.task_id) ∧
      wt.task_id ∉ completed ∧
      (∀ d ∈ (getTask st wt.task_id).depends_on, d ∈ completed))
    (hnd : (wts.map WaveTask.task_id).Nodup) (hne : wts ≠ []) :
    WaveInv st (completed ++ wts.map WaveTask.task_id)
      (acc ++ [mkWave (acc.length + 1) wts]) := by
  have hids : waveIds (mkWave (acc.length + 1) wts) = wts.map WaveTask.task_id := rfl
  have hall : allIds (acc ++ [mkWave (acc.length + 1) wts]) =
      allIds acc ++ wts.map WaveTask.task_id := by
    rw [allIds_append, hids]
  constructor
  · intro x
    rw [hall, List.mem_append, List.mem_append, inv.hc x]
  · rw [hall]
    refine List.Nodup.append inv.nd hnd ?_
    intro x hx hx2
    rcases List.mem_map.mp hx2 with ⟨wt, hwt, hid⟩
    exact (hfacts wt hwt).2.2.1 (hid ▸ (inv.hc x).mpr hx)
  · intro x hx
    rw [hall] at hx
    rcases List.mem_append.mp hx with hx | hx
    · exact inv.sub x hx
    · rcases List.mem_map.mp hx with ⟨wt, hwt, hid⟩
      exact hid ▸ (hfacts wt hwt).1
  · intro w hw
    rw [List.length_append]
    rcases List.mem_append.mp hw with hw | hw
    · have := inv.numle w hw
      omega
    · rw [List.mem_singleton.mp hw]
      show acc.length + 1 ≤ acc.length + 1
      omega
  · intro w hw wt hwt d hd
    rcases List.mem_append.mp hw with hw | hw
    · rcases inv.deps w hw wt hwt d hd with ⟨w2, hw2, hdw2, hlt⟩
      exact ⟨w2, List.mem_append.mpr (Or.inl hw2), hdw2, hlt⟩
    · rw [List.mem_singleton.mp hw] at hwt ⊢
      have hdc : d ∈ completed := (hfacts wt hwt).2.2.2 d hd
      have hda : d ∈ allIds acc := (inv.hc d).mp hdc
      rcases mem_allIds.mp hda with ⟨w2, hw2, hdw2⟩
      refine ⟨w2, List.mem_append.mpr (Or.inl hw2), hdw2, ?_⟩
      have := inv.numle w2 hw2
      show w2.wave_number < acc.length + 1
      omega
  · intro w hw wt hwt
    rcases List.mem_append.mp hw with hw | hw
    · exact inv.task w hw wt hwt
    · rw [List.mem_singleton.mp hw] at hwt
      exact ⟨(hfacts wt hwt).1, (hfacts wt hwt).2.1⟩
  · intro w hw
    rcases List.mem_append.mp hw with hw | hw
    · exact inv.dur w hw
    · rw [List.mem_singleton.mp hw]
      exact ⟨rfl, hne⟩

theorem waveLoop_spec {st : Planner} (hwf : PlannerWF st) {sorted : List String}
    (hsorted : ∀ x ∈ sorted, x ∈ taskIds st) :
    ∀ (fuel : Nat) (completed : List String) (acc W : List Wave),
      waveLoop st sorted fuel completed acc = Except.ok W ->
      WaveInv st completed acc -> WaveOut st W := by
  intro fuel
  induction fuel with
  | zero =>
    intro completed acc W h inv
    unfold waveLoop at h
    by_cases hdone : setEqB completed (taskIds st) = true
    · rw [if_pos hdone] at h
      rw [← Except.ok.inj h]
      exact waveOut_of_done inv hdone
    · rw [if_neg hdone] at h
      exact Except.noConfusion h
  | succ f ih =>
    intro completed acc W h inv
    have e : waveLoop st sorted (f + 1) completed acc =
        (if setEqB completed (taskIds st) then Except.ok acc
         else if (waveAvail st sorted completed).isEmpty then
           Except.error "No available tasks - possible circular dependency!"
         else
           waveLoop st sorted f
             (completed ++ ((packLoop st
               (List.insertionSort availRel (waveAvail st sorted completed))
               [] []).1.map WaveTask.task_id))
             (if (packLoop st
                 (List.insertionSort availRel (waveAvail st sorted completed))
                 [] []).1.isEmpty then acc
              else acc ++ [mkWave (acc.length + 1)
                (packLoop st
                  (List.insertionSort availRel (waveAvail st sorted completed))
                  [] []).1])) := rfl
    rw [e] at h
    by_cases hdone : setEqB completed (taskIds st) = true
    · rw [if_pos hdone] at h
      rw [← Except.ok.inj h]
      exact waveOut_of_done inv hdone
    · rw [if_neg hdone] at h
      by_cases hemp : (waveAvail st sorted completed).isEmpty = true
      · rw [if_pos hemp] at h
        exact Except.noConfusion h
      · rw [if_neg hemp] at h
        have hfacts := @packed_facts st hwf sorted completed hsorted
        have hnd := packLoop_nodup st
          (List.insertionSort availRel (waveAvail st sorted completed)) [] []
          (fun wt hwt => absurd hwt (List.not_mem_nil wt)) List.nodup_nil
        by_cases hwts : (packLoop st
            (List.insertionSort availRel (waveAvail st sorted completed))
            [] []).1.isEmpty = true
        · rw [if_pos hwts] at h
          apply ih _ _ _ h
          have hmapnil : (packLoop st
              (List.insertionSort availRel (waveAvail st sorted completed))
              [] []).1.map WaveTask.task_id = [] := by
            rw [List.isEmpty_iff.mp hwts]
            rfl
          rw [hmapnil]
          constructor
          · intro x
            rw [List.mem_append]
            constructor
            · rintro (hx | hx)
              · exact (inv.hc x).mp hx
              · exact absurd hx (List.not_mem_nil x)
            · intro hx
              exact Or.inl ((inv.hc x).mpr hx)
          · exact inv.nd
          · exact inv.sub
          · exact inv.numle
          · exact inv.deps
          · exact inv.task
          · exact inv.dur
        · rw [if_neg hwts] at h
          apply ih _ _ _ h
          exact waveInv_step inv hfacts hnd
            (fun hne => hwts (by rw [hne]; rfl))

theorem waveInv_init (st : Planner) : WaveInv st [] [] := by
  constructor
  · intro x
    constructor
    · intro hx; exact absurd hx (List.not_mem_nil x)
    · intro hx; exact absurd hx (List.not_mem_nil x)
  · exact List.nodup_nil
  · intro x hx; exact absurd hx (List.not_mem_nil x)
  · intro w hw; exact absurd hw (List.not_mem_nil w)
  · intro w hw; exact absurd hw (List.not_mem_nil w)
  · intro w hw; exact absurd hw (List.not_mem_nil w)
  · intro w hw; exact absurd hw (List.not_mem_nil w)

theorem generate_ok_elim {st : Planner} {plan : Plan}
    (h : generate_execution_plan st = Except.ok plan) :
    ∃ waves, waveLoop st (topoResult (fun _ l => l) st)
        ((taskIds st).length + 1) [] [] = Except.ok waves ∧
      plan = assemble st waves := by
  unfold generate_execution_plan generateC topoSortC at h
  by_cases hc : ((topoResult (fun _ l => l) st).length != (taskIds st).length) = true
  · rw [if_pos hc] at h
    exact Except.noConfusion h
  · rw [if_neg hc] at h
    have h2 : (match waveLoop st (topoResult (fun _ l => l) st)
        ((taskIds st).length + 1) [] [] with
      | Except.error e => Except.error e
      | Except.ok waves => Except.ok (assemble st waves)) = Except.ok plan := h
    cases hw : waveLoop st (topoResult (fun _ l => l) st)
        ((taskIds st).length + 1) [] [] with
    | error e =>
      rw [hw] at h2
      exact Except.noConfusion h2
    | ok waves =>
      rw [hw] at h2
      exact ⟨waves, rfl, (Except.ok.inj h2).symm⟩

/-! ### Claim theorems: wave partition, dependency order, durations -/

/-- C4: for every successfully produced plan, each loaded task id appears in
exactly one wave (counted once across the concatenation of all waves), and
every dependency of a scheduled task lies in some wave with a strictly
smaller wave number. -/
theorem c4_partition_and_dep_order (deps : List DepEntry)
    (confs : List ConflictEntry) (plan : Plan)
    (h : generate_execution_plan (load_data deps confs) = Except.ok plan) :
    (∀ id ∈ taskIds (load_data deps confs),
      (allIds plan.waves).count id = 1) ∧
    (∀ w ∈ plan.waves, ∀ wt ∈ w.tasks,
      ∀ d ∈ (getTask (load_data deps confs) wt.task_id).depends_on,
      ∃ w2 ∈ plan.waves, d ∈ waveIds w2 ∧ w2.wave_number < w.wave_number) := by
  have hwf := load_data_wf deps confs
  rcases generate_ok_elim h with ⟨waves, hw, hplan⟩
  have hout := waveLoop_spec hwf
    (fun x hx => (topoResult_res hwf).sub x hx) _ _ _ _ hw
    (waveInv_init (load_data deps confs))
  have hpw : plan.waves = waves := by rw [hplan]; rfl
  rw [hpw]
  constructor
  · intro id hid
    exact List.count_eq_one_of_mem hout.nd (hout.cover id hid)
  · exact hout.deps

/-- The plan of the three-task example (used by the C4 and C7 witnesses). -/
def planC1 : Plan :=
  (generate_execution_plan stC1).toOption.getD (assemble stC1 [])

/-- C4 witness: the invariants instantiated at the produced plan of the
three-task example. -/
theorem c4_witness :
    (∀ id ∈ taskIds stC1, (allIds planC1.waves).count id = 1) ∧
    (∀ w ∈ planC1.waves, ∀ wt ∈ w.tasks,
      ∀ d ∈ (getTask stC1 wt.task_id).depends_on,
      ∃ w2 ∈ planC1.waves, d ∈ waveIds w2 ∧ w2.wave_number < w.wave_number) :=
  c4_partition_and_dep_order depsC1 confsC1 planC1 rfl

theorem foldl_max_le_add_sum :
    ∀ (xs : List Int) (x : Int), 0 ≤ x -> (∀ y ∈ xs, 0 ≤ y) ->
      xs.foldl max x ≤ x + xs.sum := by
  intro xs
  induction xs with
  | nil =>
    intro x _ _
    simp
  | cons y ys ih =>
    intro x hx hmem
    have hy : 0 ≤ y := hmem y (List.mem_cons_self _ _)
    have h1 : List.foldl max (max x y) ys ≤ max x y + ys.sum :=
      ih (max x y) (le_trans hx (le_max_left x y))
        (fun z hz => hmem z (List.mem_cons_of_mem _ hz))
    have h2 : max x y ≤ x + y := max_le (by omega) (by omega)
    have h3 : (y :: ys).sum = y + ys.sum := List.sum_cons
    show List.foldl max (max x y) ys ≤ x + (y :: ys).sum
    rw [h3]
    omega

theorem listMaxD_le_sum {l : List Int} (h : ∀ x ∈ l, 0 ≤ x) (hne : l ≠ []) :
    listMaxD l ≤ l.sum := by
  cases l with
  | nil => exact absurd rfl hne
  | cons x xs =>
    have h1 : List.foldl max x xs ≤ x + xs.sum :=
      foldl_max_le_add_sum xs x (h x (List.mem_cons_self _ _))
        (fun y hy => h y (List.mem_cons_of_mem _ hy))
    show List.foldl max x xs ≤ (x :: xs).sum
    rw [List.sum_cons]
    exact h1

/-- C7: in every produced plan each wave's duration is the maximum (not the
sum) of its members' expected runtimes, `parallel_time_min` is the sum of
the wave durations, and — under the data-model invariant that runtimes are
non-negative — the parallel time never exceeds the sequential time
(stated, per the claim, whenever some wave holds more than one task). -/
theorem c7_durations_and_savings (deps : List DepEntry)
    (confs : List ConflictEntry) (plan : Plan)
    (h : generate_execution_plan (load_data deps confs) = Except.ok plan)
    (hrt : ∀ p ∈ (load_data deps confs).tasks, 0 ≤ p.2.expected_runtime_min) :
    (∀ w ∈ plan.waves, w.estimated_wave_time_min =
      listMaxD (w.tasks.map WaveTask.expected_runtime_min)) ∧
    plan.summary.parallel_time_min =
      (plan.waves.map Wave.estimated_wave_time_min).sum ∧
    ((∃ w ∈ plan.waves, 1 < w.tasks.length) ->
      plan.summary.parallel_time_min ≤ plan.summary.sequential_time_min) := by
  have hwf := load_data_wf deps confs
  set st := load_data deps confs with hst
  rcases generate_ok_elim h with ⟨waves, hw, hplan⟩
  have hout := waveLoop_spec hwf
    (fun x hx => (topoResult_res hwf).sub x hx) _ _ _ _ hw (waveInv_init st)
  have hrtOf : ∀ id ∈ taskIds st, 0 ≤ (getTask st id).expected_runtime_min := by
    intro id hid
    rcases List.mem_map.mp hid with ⟨p, hp, hid2⟩
    rw [← hid2, getTask_eq hwf.tidsNodup hp]
    exact hrt p hp
  rw [hplan]
  refine ⟨?_, rfl, ?_⟩
  · intro w hw2
    exact (hout.dur w hw2).1
  · intro _
    show (waves.map Wave.estimated_wave_time_min).sum ≤
      (st.tasks.map (fun p => p.2.expected_runtime_min)).sum
    have hwtrt : ∀ w ∈ waves, ∀ wt ∈ w.tasks,
        wt.expected_runtime_min = (getTask st wt.task_id).expected_runtime_min := by
      intro w hww wt hwt
      conv_lhs => rw [(hout.task w hww wt hwt).2]
      rfl
    have step1 : (waves.map Wave.estimated_wave_time_min).sum ≤
        (waves.map (fun w => (w.tasks.map WaveTask.expected_runtime_min).sum)).sum := by
      apply List.sum_le_sum
      intro w hww
      rw [(hout.dur w hww).1]
      apply listMaxD_le_sum
      · intro x hx
        rcases List.mem_map.mp hx with ⟨wt, hwt, hx2⟩
        rw [← hx2, hwtrt w hww wt hwt]
        exact hrtOf wt.task_id (hout.task w hww wt hwt).1
      · intro hnil
        exact (hout.dur w hww).2 (by
          cases he : w.tasks with
          | nil => rfl
          | cons a l => rw [he] at hnil; exact List.noConfusion hnil)
    have step2 : (waves.map (fun w => (w.tasks.map WaveTask.expected_runtime_min).sum)).sum =
        ((allIds waves).map (fun id => (getTask st id).expected_runtime_min)).sum := by
      have e1 : waves.map (fun w => (w.tasks.map WaveTask.expected_runtime_min).sum) =
          waves.map (fun w => ((waveIds w).map
            (fun id => (getTask st id).expected_runtime_min)).sum) := by
        apply List.map_congr_left
        intro w hww
        congr 1
        unfold waveIds
        rw [List.map_map]
        apply List.map_congr_left
        intro wt hwt
        exact hwtrt w hww wt hwt
      rw [e1]
      unfold allIds
      rw [List.map_flatten, List.sum_flatten, List.map_map, List.map_map]
      rfl
    have hperm : (allIds waves).Perm (taskIds st) :=
      ((List.Nodup.subperm hout.nd hout.sub).antisymm
        (List.Nodup.subperm hwf.tidsNodup hout.cover))
    have step3 : ((allIds waves).map
        (fun id => (getTask st id).expected_runtime_min)).sum =
        ((taskIds st).map (fun id => (getTask st id).expected_runtime_min)).sum :=
      (hperm.map _).sum_eq
    have step4 : ((taskIds st).map
        (fun id => (getTask st id).expected_runtime_min)).sum =
        (st.tasks.map (fun p => p.2.expected_runtime_min)).sum := by
      unfold taskIds
      rw [List.map_map]
      congr 1
      apply List.map_congr_left
      intro p hp
      show (getTask st p.1).expected_runtime_min = _
      rw [getTask_eq hwf.tidsNodup hp]
    rw [step2, step3, step4] at step1
    exact step1

/-- C7 witness: durations and time bounds instantiated at the produced plan
of the three-task example. -/
theorem c7_witness :
    (∀ w ∈ planC1.waves, w.estimated_wave_time_min =
      listMaxD (w.tasks.map WaveTask.expected_runtime_min)) ∧
    planC1.summary.parallel_time_min =
      (planC1.waves.map Wave.estimated_wave_time_min).sum ∧
    ((∃ w ∈ planC1.waves, 1 < w.tasks.length) ->
      planC1.summary.parallel_time_min ≤ planC1.summary.sequential_time_min) :=
  c7_durations_and_savings depsC1 confsC1 planC1 rfl (by decide)

end GenPlan
